import Mathlib

/-!
Verification development for the pylogix controller-project model.

The definitions below are a shallow embedding of the Python sources:
`base/pylogix_object.py`, `base/pylogix_dependencies.py`, `base/pylogix_list.py`,
`datatype/datatype.py`, `tag/tag.py`, `rung/rung.py`, `routine/routine.py`,
`program/program.py`, `task/task.py`.

Python strings are modelled as Lean `String` values (scanning is done on
`List Char`); Python `None` becomes `Option.none`; Python lists become Lean
lists; in-place mutation becomes explicit state passing; a raised exception
becomes `Except.error`.  Python's unbounded recursion is modelled with an
explicit fuel argument where the source recursion is not structural.
-/

set_option autoImplicit false
set_option maxRecDepth 4000

/-! ## Python string primitives (List Char level)

These model the Python `str` operations used by the sources: `split` on a
single character, `find`, slicing around the first occurrence of a character,
`replace`, `strip` / `lstrip` / `rstrip`, substring containment, and `int()`
parsing (restricted to ASCII input, which is all the sources ever feed it).
-/

/-- Python whitespace characters recognised by `str.strip()` (ASCII range). -/
def pyIsWs (c : Char) : Bool :=
  c = ' ' || c = '\t' || c = '\n' || c = '\r' || c = '\x0b' || c = '\x0c'

/-- `str.lstrip()` on a character list. -/
def pyStripLeft : List Char → List Char
  | [] => []
  | c :: cs => if pyIsWs c then pyStripLeft cs else c :: cs

/-- `str.rstrip()` on a character list. -/
def pyStripRight (l : List Char) : List Char :=
  (pyStripLeft l.reverse).reverse

/-- `str.strip()` on a character list. -/
def pyStrip (l : List Char) : List Char :=
  pyStripRight (pyStripLeft l)

/-- `str.lstrip(ch)` for a single strip character. -/
def stripLeadingChar (ch : Char) : List Char → List Char
  | [] => []
  | c :: cs => if c = ch then stripLeadingChar ch cs else c :: cs

/-- `str.rstrip(ch)` for a single strip character. -/
def stripTrailingChar (ch : Char) (l : List Char) : List Char :=
  (stripLeadingChar ch l.reverse).reverse

/-- Whether `pat` occurs at the start of `s` (used to model scanning). -/
def leadsWith : List Char → List Char → Bool
  | [], _ => true
  | _ :: _, [] => false
  | p :: ps, x :: xs => p = x && leadsWith ps xs

/-- Python substring containment `pat in hay`. -/
def containsSub (pat : List Char) : List Char → Bool
  | [] => leadsWith pat []
  | x :: xs => leadsWith pat (x :: xs) || containsSub pat xs

/-- Python `s.split(c)` for a one-character separator: always returns at least
one (possibly empty) piece and keeps empty pieces, like CPython. -/
def splitChars (sep : Char) : List Char → List (List Char)
  | [] => [[]]
  | x :: xs =>
    match splitChars sep xs with
    | [] => [[]]
    | h :: t => if x = sep then [] :: h :: t else (x :: h) :: t

/-- Index of the first occurrence of `c` (Python `str.find`, `none` for -1). -/
def pyFindChar (c : Char) : List Char → Option Nat
  | [] => none
  | x :: xs =>
    if x = c then some 0
    else match pyFindChar c xs with
      | none => none
      | some i => some (i + 1)

/-- The characters strictly after the first occurrence of `c`
(Python `s[s.find(c) + 1:]` when `c` is known to occur; `[]` otherwise). -/
def afterFirstChar (c : Char) : List Char → List Char
  | [] => []
  | x :: xs => if x = c then xs else afterFirstChar c xs

/-- The characters strictly before the first occurrence of `c`, if any. -/
def upToChar (c : Char) : List Char → Option (List Char)
  | [] => none
  | x :: xs =>
    if x = c then some []
    else match upToChar c xs with
      | none => none
      | some pre => some (x :: pre)

/-- Python `s[:s.find(c)]`: the prefix before the first `c`, or — because
`find` returns -1 and `s[:-1]` drops the last character — everything but the
last character when `c` does not occur. -/
def pySliceToFind (c : Char) (l : List Char) : List Char :=
  match upToChar c l with
  | some pre => pre
  | none => l.dropLast

/-- Python `str.replace` (left-to-right, non-overlapping).  The fuel is the
length of the subject string, which is sufficient for every non-empty
pattern; all call sites in the sources use non-empty patterns. -/
def replaceFuel (pat rep : List Char) : Nat → List Char → List Char
  | 0, s => s
  | _ + 1, [] => []
  | fuel + 1, x :: xs =>
    if leadsWith pat (x :: xs) then rep ++ replaceFuel pat rep fuel ((x :: xs).drop pat.length)
    else x :: replaceFuel pat rep fuel xs

/-- Python `s.replace(pat, rep)` lifted to `String`. -/
def pyReplace (s pat rep : String) : String :=
  String.mk (replaceFuel pat.toList rep.toList s.toList.length s.toList)

/-- An ASCII decimal digit. -/
def isAsciiDigit (c : Char) : Bool := '0' ≤ c && c ≤ '9'

/-- Tail of a Python integer-literal digit run: digits with single
underscores allowed between digits. -/
def digitsTail : List Char → Bool
  | [] => true
  | '_' :: [] => false
  | '_' :: c :: rest => isAsciiDigit c && digitsTail rest
  | c :: rest => isAsciiDigit c && digitsTail rest

/-- A non-empty Python digit run (underscore separators allowed inside). -/
def digitsRun : List Char → Bool
  | [] => false
  | c :: rest => isAsciiDigit c && digitsTail rest

/-- Whether CPython `int(token)` succeeds, for ASCII tokens: optional
surrounding whitespace, optional sign, then a digit run. -/
def pyIsIntLit (l : List Char) : Bool :=
  match pyStrip l with
  | '+' :: rest => digitsRun rest
  | '-' :: rest => digitsRun rest
  | rest => digitsRun rest

/-- Deduplication keeping first occurrences; this is the deterministic stand-in
for Python's `list(set(...))` (the set's iteration order is arbitrary in
CPython; all claims about miner output are order-insensitive). -/
def dedupFirstAux (seen : List (List Char)) : List (List Char) → List (List Char)
  | [] => []
  | x :: xs =>
    if seen.contains x then dedupFirstAux seen xs
    else x :: dedupFirstAux (x :: seen) xs

/-- `list(set(l))` modelled as first-occurrence deduplication. -/
def dedupFirst (l : List (List Char)) : List (List Char) :=
  dedupFirstAux [] l

/-- `name.split(sep)` lifted to `String`, producing `String` tokens. -/
def pySplitOn (sep : Char) (s : String) : List String :=
  (splitChars sep s.toList).map String.mk


/-! ## Description-property grammar (`base/pylogix_object.py`)

`PyLogixObject.property_list_from_string` recursively extracts the pieces of a
description found between `<` and `>` (with the source's literal anchor
arithmetic), and `DescriptionProperties.get_properties` classifies them. -/

/-- One recursion step of `property_list_from_string`; the fuel bounds the
recursion (each step drops at least two characters of the subject). -/
def propListAux : Nat → List Char → List String → List String
  | 0, _, props => props
  | fuel + 1, s, props =>
    if s = [] then props
    else
      match pyFindChar '<' s with
      | none => props
      | some fb =>
        let ba := fb + 1
        match pyFindChar '>' (s.drop ba) with
        | none => props
        | some rel =>
          let fe := ba + rel
          let ea := ba + (fe - 1)
          let piece := stripTrailingChar '>' (stripLeadingChar '<' ((s.drop ba).take (ea - ba)))
          propListAux fuel (pyStripLeft (s.drop (ba + fe))) (props ++ [String.mk piece])

/-- `PyLogixObject.property_list_from_string(description)` with the default
`<` and `>` delimiters; a `None` or empty description yields no properties. -/
def propertyListFromString (s : Option String) : List String :=
  match s with
  | none => []
  | some str => propListAux (str.toList.length + 1) str.toList []

/-- The values of the `DescriptionPropertyIdentifier` enum
(`base/pylogix_enum.py`); `from_string` succeeds exactly on these. -/
def identifierValues : List String :=
  ["N/A", "@AOI", "@CONTROLLER", "@DATATYPE", "@INFO", "@MODULE", "@PROGRAM",
   "@ROUTINE", "@RUNG", "@TAG", "@TASK", "@TODO", "@UDT"]

/-- `DescriptionPropertyIdentifier.from_string`: the matching enum value. -/
def identFromString (s : String) : Option String :=
  if s ∈ identifierValues then some s else none

/-- `DescriptionProperties.parse_from_property`: the first property containing
the key as a substring, with all key occurrences removed and then stripped. -/
def parseFromProp (key : String) : List String → Option String
  | [] => none
  | p :: ps =>
    if containsSub key.toList p.toList then
      some (String.mk (pyStrip (replaceFuel key.toList [] p.toList.length p.toList)))
    else parseFromProp key ps

/-- The parsed description metadata of a pylogix object.  A freshly
constructed instance has every field `none` (the Python class attributes). -/
structure DescriptionProperties where
  identifier : Option String
  type : Option String
  version : Option String
  description : Option String
  editable : Option Bool

/-- The default `DescriptionProperties()` instance. -/
def emptyDescriptionProperties : DescriptionProperties :=
  ⟨none, none, none, none, none⟩

/-- `DescriptionProperties.get_properties` from a property list. -/
def getProperties : List String → DescriptionProperties
  | [] => emptyDescriptionProperties
  | p :: ps =>
    { identifier := some (match identFromString p with
        | some v => v
        | none => "")
      type := parseFromProp "@TYPE" (p :: ps)
      version := parseFromProp "@VERSION" (p :: ps)
      description := parseFromProp "@DESC" (p :: ps)
      editable := some (if "@NOEDITS" ∈ p :: ps then false else true) }

/-! ## `difflib.SequenceMatcher` (similarity matching)

`Program.__push_routine__` compares routine names with
`SequenceMatcher(None, a, b).ratio()`.  Routine names are far below difflib's
autojunk threshold of 200 characters, so no junk heuristic applies and
`ratio()` is `2 * M / (len(a) + len(b))` where `M` is the total size of the
matching blocks.  Floats are modelled as exact rationals via cross
multiplication against a `gNum / gDen` gain. -/

/-- Length of the common prefix of two character lists. -/
def runLen : List Char → List Char → Nat
  | x :: xs, y :: ys => if x = y then runLen xs ys + 1 else 0
  | _, _ => 0

/-- `SequenceMatcher.find_longest_match` over whole sequences (no junk):
the longest matching block `(i, j, k)`, preferring the earliest start in `a`
and then the earliest start in `b` on ties. -/
def findLongestMatch (a b : List Char) : Nat × Nat × Nat :=
  (List.range a.length).foldl
    (fun best i =>
      (List.range b.length).foldl
        (fun best j =>
          let k := runLen (a.drop i) (b.drop j)
          if best.2.2 < k then (i, j, k) else best)
        best)
    (0, 0, 0)

/-- Total size of all matching blocks (`get_matching_blocks` recursion on the
segments left and right of each longest match); the fuel bounds the recursion
depth and `|a| + |b| + 1` always suffices. -/
def totalMatchesFuel : Nat → List Char → List Char → Nat
  | 0, _, _ => 0
  | fuel + 1, a, b =>
    let m := findLongestMatch a b
    if m.2.2 = 0 then 0
    else
      totalMatchesFuel fuel (a.take m.1) (b.take m.2.1) + m.2.2 +
        totalMatchesFuel fuel (a.drop (m.1 + m.2.2)) (b.drop (m.2.1 + m.2.2))

/-- `M`: the matched-character total used by `ratio()`. -/
def smTotalMatches (a b : String) : Nat :=
  totalMatchesFuel (a.toList.length + b.toList.length + 1) a.toList b.toList

/-- Numerator of `ratio()` (the `2.0 * matches` part). -/
def smRatioNum (a b : String) : Nat := 2 * smTotalMatches a b

/-- Denominator of `ratio()` (the combined length). -/
def smRatioDen (a b : String) : Nat := a.toList.length + b.toList.length

/-- `SequenceMatcher(None, a, b).ratio() >= gNum / gDen`, decided exactly by
cross multiplication (for the degenerate two-empty-strings case difflib
returns 1.0, which agrees with this test for any gain at most one). -/
def ratioGeGain (a b : String) (gNum gDen : Nat) : Bool :=
  decide (gNum * smRatioDen a b ≤ gDen * smRatioNum a b)


/-! ## Entity graph

The entity structures carry exactly the fields the claims exercise; fields of
the Python classes that no claim touches (radix enums, external access, l5x
node caches, ...) are omitted.  Cross references that Python keeps as live
object pointers become embedded values; the collections a `rebind` pass reads
are passed explicitly, mirroring the `kwargs` threading of the sources. -/

mutual

/-- `datatype.DataType`: name, description, parsed description metadata, the
atomic / base-instruction terminality flags, and the ordered member list. -/
inductive SDataType : Type where
  | mk (name : String) (description : Option String) (descProps : DescriptionProperties)
       (isAtomic : Bool) (isBaseLogixInstruction : Bool)
       (members : List SMember)

/-- `datatype.DataTypeMember`: name, description, the stored datatype meta
name, dimension count, radix, hidden flag, and the datatype reference
resolved by `rebind` (initially `None`). -/
inductive SMember : Type where
  | mk (name : String) (description : Option String)
       (datatypeMetaName : Option String) (dimensions : Nat)
       (radix : Option String) (hidden : Bool) (datatype : Option SDataType)

end

/-- Name of a datatype. -/
def SDataType.name : SDataType → String
  | .mk n _ _ _ _ _ => n

/-- Description of a datatype. -/
def SDataType.description : SDataType → Option String
  | .mk _ d _ _ _ _ => d

/-- Parsed description metadata of a datatype. -/
def SDataType.descProps : SDataType → DescriptionProperties
  | .mk _ _ pr _ _ _ => pr

/-- The `is_atomic` flag. -/
def SDataType.isAtomic : SDataType → Bool
  | .mk _ _ _ a _ _ => a

/-- The `is_base_logix_instruction` flag. -/
def SDataType.isBaseLogixInstruction : SDataType → Bool
  | .mk _ _ _ _ b _ => b

/-- The member list. -/
def SDataType.members : SDataType → List SMember
  | .mk _ _ _ _ _ ms => ms

/-- Name of a member. -/
def SMember.name : SMember → String
  | .mk n _ _ _ _ _ _ => n

/-- Description of a member. -/
def SMember.description : SMember → Option String
  | .mk _ d _ _ _ _ _ => d

/-- The stored `datatype_meta_name`. -/
def SMember.datatypeMetaName : SMember → Option String
  | .mk _ _ m _ _ _ _ => m

/-- The `dimensions` count (0 = scalar). -/
def SMember.dimensions : SMember → Nat
  | .mk _ _ _ d _ _ _ => d

/-- The radix annotation. -/
def SMember.radix : SMember → Option String
  | .mk _ _ _ _ r _ _ => r

/-- The `hidden` flag. -/
def SMember.hidden : SMember → Bool
  | .mk _ _ _ _ _ h _ => h

/-- The resolved datatype reference. -/
def SMember.datatype : SMember → Option SDataType
  | .mk _ _ _ _ _ _ dt => dt

/-- Rebuild a member with a new resolved datatype reference. -/
def SMember.withDatatype (m : SMember) (dt : Option SDataType) : SMember :=
  match m with
  | .mk n d mn dim r h _ => .mk n d mn dim r h dt

/-- `DataTypeMember.__init__`: stores the declared meta name, normalising a
declared `BIT` to `BOOL`; the resolved datatype reference starts out `None`. -/
def dataTypeMemberInit (name : String) (description : Option String)
    (datatypeMetaName : Option String) (dimensions : Nat)
    (radix : Option String) (hidden : Bool) : SMember :=
  let meta := if datatypeMetaName = some "BIT" then some "BOOL" else datatypeMetaName
  .mk name description meta dimensions radix hidden none

/-- The `DataType` attribute written by `DataTypeMember.to_l5x_xml_node`:
the stored meta name, except that a stored `BOOL` is written as `BIT` for
dimension 0 and as `BOOL` otherwise. -/
def memberEmitDataType (m : SMember) : Option String :=
  if m.datatypeMetaName ≠ some "BOOL" then m.datatypeMetaName
  else if m.dimensions = 0 then some "BIT" else some "BOOL"

/-- `tag.Tag`: name, description, alias target name, resolved datatype
reference, stored datatype meta name, and the parsed description metadata. -/
structure STag where
  name : String
  description : Option String
  aliasFor : Option String
  datatype : Option SDataType
  datatypeMetaName : Option String
  descProps : DescriptionProperties

/-- `add_on_instruction.AddOnInstructionDefinition` reduced to identity and
description state: the class overrides no `rebind`, so only the inherited
description re-parse applies to it (its parameters, local tags and internal
routines are never rebound). -/
structure SAoi where
  name : String
  description : Option String
  descProps : DescriptionProperties

/-- `module.Module` reduced to identity and description state: it overrides
no `rebind`, so only the inherited description re-parse applies. -/
structure SModule where
  name : String
  description : Option String
  descProps : DescriptionProperties

/-- `rung.Rung`: logic text, description metadata, comment, plus the
referenced tag / program-tag / AOI sets populated at parse time.  (A rung
whose `text` is Python `None` never reaches the mined or merged paths the
claims exercise, so `text` is a `String`.) -/
structure SRung where
  text : String
  description : Option String
  descProps : DescriptionProperties
  comment : Option String
  tags : List STag
  programTags : List STag
  addOnInstructions : List SAoi

/-- `routine.Routine`: name, description, parsed description metadata, the
`description_properties.type` role the merge engine reads (kept in step with
`descProps` by `rebind`), and the ordered rungs. -/
structure SRoutine where
  name : String
  description : Option String
  descProps : DescriptionProperties
  descType : Option String
  rungs : List SRung

/-- `program.Program`: name, description, parsed description metadata, the
`description_properties.type` role (kept in step with `descProps` by
`rebind`), the `_generator_properties` strings, the local tag list and the
routine list. -/
structure SProgram where
  name : String
  description : Option String
  descProps : DescriptionProperties
  descType : Option String
  generatorProperties : List String
  tags : List STag
  routines : List SRoutine

/-- `task.Task`: name, description, parsed description metadata, the scheduled
program names, and the program references resolved by `rebind`. -/
structure STask where
  name : String
  description : Option String
  descProps : DescriptionProperties
  scheduledMetaPrograms : List String
  scheduledPrograms : List SProgram

/-! ## Name-keyed list operations (`base/pylogix_list.py`, `__eq__`)

`PyLogixObject.__eq__` compares by name, so Python's `in`, `list.remove` and
the guarded `append` of `PylogixList` are all name-keyed. -/

/-- `PylogixList.by_name` / first element with the given name. -/
def pyFindByName {α : Type} (nm : α → String) : List α → String → Option α
  | [], _ => none
  | x :: xs, s => if nm x = s then some x else pyFindByName nm xs s

/-- `list.remove(obj)` under name equality: drop the first element with the
name, or leave the list unchanged when the name is absent (the guarded
`PylogixList.remove` no-ops in that case). -/
def pyRemoveFirstByName {α : Type} (nm : α → String) : List α → String → List α
  | [], _ => []
  | x :: xs, s => if nm x = s then xs else x :: pyRemoveFirstByName nm xs s

/-- `PylogixList.append` without overwrite, and equally
`PyLogixDependencies.safe_add_item`: append unless the name is present. -/
def safeAddItem {α : Type} (nm : α → String) (l : List α) (x : α) : List α :=
  match pyFindByName nm l (nm x) with
  | some _ => l
  | none => l ++ [x]

/-- `PylogixList.extend` without overwrite, and equally
`PyLogixDependencies.__safe_add__`: fold `safeAddItem` over the additions. -/
def safeAddAll {α : Type} (nm : α → String) (l₁ l₂ : List α) : List α :=
  l₂.foldl (safeAddItem nm) l₁

/-! ## Dependency sets (`base/pylogix_dependencies.py`) -/

/-- `PyLogixDependencies`: the seven typed buckets. -/
structure SDeps where
  addOnInstructions : List SAoi
  datatypes : List SDataType
  modules : List SModule
  programs : List SProgram
  tags : List STag
  programTags : List STag
  tasks : List STask

/-- A freshly constructed `PyLogixDependencies()`. -/
def emptyDeps : SDeps := ⟨[], [], [], [], [], [], []⟩

/-- `PyLogixDependencies.extend`: name-guarded bucket-wise accumulation. -/
def extendDeps (d other : SDeps) : SDeps :=
  { addOnInstructions := safeAddAll SAoi.name d.addOnInstructions other.addOnInstructions
    datatypes := safeAddAll SDataType.name d.datatypes other.datatypes
    modules := safeAddAll SModule.name d.modules other.modules
    programs := safeAddAll SProgram.name d.programs other.programs
    tags := safeAddAll STag.name d.tags other.tags
    programTags := safeAddAll STag.name d.programTags other.programTags
    tasks := safeAddAll STask.name d.tasks other.tasks }

/-! ## Dependency-closure functions (`get_dependencies`)

The Python recursion through member datatypes is unbounded; the `fuel`
argument bounds it here, and the nesting depth of any concrete datatype is a
sufficient fuel. -/

/-- `DataType.get_dependencies`: empty for atomic / base-instruction types,
else the root (when requested) plus every non-terminal member datatype and
its own closure. -/
def dtGetDependencies : Nat → Bool → SDataType → SDeps
  | 0, _, _ => emptyDeps
  | fuel + 1, includeRoot, dt =>
    if dt.isAtomic || dt.isBaseLogixInstruction then emptyDeps
    else
      let d0 := if includeRoot then
          { emptyDeps with datatypes := safeAddItem SDataType.name [] dt }
        else emptyDeps
      (dt.members.filter (fun mem =>
          match mem.datatype with
          | some md => !md.isAtomic && !md.isBaseLogixInstruction
          | none => false)).foldl
        (fun deps mem =>
          match mem.datatype with
          | none => deps
          | some md =>
            let deps := { deps with datatypes := safeAddItem SDataType.name deps.datatypes md }
            extendDeps deps (dtGetDependencies fuel false md))
        d0

/-- `Tag.get_dependencies`: the tag itself when `include_root`, plus its
datatype's closure (root included) when a datatype is resolved. -/
def tagGetDependencies (fuel : Nat) (includeRoot : Bool) (t : STag) : SDeps :=
  let d0 := if includeRoot then
      { emptyDeps with tags := safeAddItem STag.name [] t }
    else emptyDeps
  match t.datatype with
  | some dt => extendDeps d0 (dtGetDependencies fuel true dt)
  | none => d0

/-- `Rung.get_dependencies`: the referenced tag / program-tag / AOI sets plus
the datatype closures of the non-terminal referenced tag datatypes. -/
def rungGetDependencies (fuel : Nat) (g : SRung) : SDeps :=
  let d := { emptyDeps with
      tags := safeAddAll STag.name [] g.tags
      programTags := safeAddAll STag.name [] g.programTags
      addOnInstructions := safeAddAll SAoi.name [] g.addOnInstructions }
  let d := g.tags.foldl
    (fun d t =>
      match t.datatype with
      | some dt =>
        if !dt.isAtomic && !dt.isBaseLogixInstruction then
          extendDeps d (dtGetDependencies fuel true dt)
        else d
      | none => d)
    d
  g.programTags.foldl
    (fun d t =>
      match t.datatype with
      | some dt =>
        if !dt.isAtomic && !dt.isBaseLogixInstruction then
          extendDeps d (dtGetDependencies fuel true dt)
        else d
      | none => d)
    d

/-- `Routine.get_dependencies`: the union of the rung closures. -/
def routineGetDependencies (fuel : Nat) (r : SRoutine) : SDeps :=
  r.rungs.foldl (fun d g => extendDeps d (rungGetDependencies fuel g)) emptyDeps

/-- `Program.get_dependencies`: the program itself when `include_root`, plus
the routine closures and the local tag closures (tags without roots). -/
def progGetDependencies (fuel : Nat) (includeRoot : Bool) (p : SProgram) : SDeps :=
  let d0 := if includeRoot then
      { emptyDeps with programs := safeAddItem SProgram.name [] p }
    else emptyDeps
  let d1 := p.routines.foldl (fun d r => extendDeps d (routineGetDependencies fuel r)) d0
  p.tags.foldl (fun d t => extendDeps d (tagGetDependencies fuel false t)) d1

/-- `Task.get_dependencies`: only the task itself, when `include_root`. -/
def taskGetDependencies (includeRoot : Bool) (t : STask) : SDeps :=
  if includeRoot then { emptyDeps with tasks := [t] } else emptyDeps

/-! ## Rung text miner (`rung/rung.py`)

`Rung.__get_tag_metas__` and `Rung.__get_instruction_metas__` are pure string
scans over the rung's logic text. -/

/-- The punctuation that disqualifies an operand token. -/
def illegalTagChars : List Char := [',', '"', '\'', '?', ':']

/-- The punctuation stripped from instruction mnemonics. -/
def illegalInstrChars : List Char := [',', '"', '\'', '?', ':', '[', ']']

/-- `Rung.__get_tag_metas__`: split the text on `)`, take the comma-separated
arguments after each fragment's first `(`, cut at the first `.`, deduplicate,
then drop empty tokens, tokens with illegal punctuation and integer literals,
and finally cut each surviving token at its first `[`. -/
def getTagMetas (text : String) : List String :=
  if text = "" then []
  else
    let fragments := (splitChars ')' text.toList).filter (fun f => f.contains '(')
    let iterInstructions := (fragments.map (fun f => splitChars ',' (afterFirstChar '(' f))).flatten
    let upperTagsPre := dedupFirst (iterInstructions.map (fun t => (splitChars '.' t).headD []))
    upperTagsPre.foldl
      (fun acc tag =>
        if tag = [] then acc
        else if tag.any (fun c => illegalTagChars.contains c) then acc
        else if pyIsIntLit tag then acc
        else
          let tag := match upToChar '[' tag with
            | some pre => pre
            | none => tag
          acc ++ [String.mk tag])
      []

/-- `Rung.__get_instruction_metas__`: split the text on `)`, slice each
fragment up to its first `(` (with Python's find-returns-minus-one slicing),
remove the illegal punctuation, strip whitespace, and deduplicate. -/
def getInstructionMetas (text : String) : List String :=
  if text = "" then []
  else
    let outs := (splitChars ')' text.toList).map
      (fun f => pyStrip ((pySliceToFind '(' f).filter (fun c => !illegalInstrChars.contains c)))
    (dedupFirst outs).map String.mk


/-! ## Name validation (`PyLogixObject.name` setter) -/

/-- The characters rejected by the name setter. -/
def badNameChars : List Char :=
  ['.', ',', '-', '/', '\\', '!', '@', '#', '$', '%', '^', '&', '*', '(', ')', '=', '+', ' ']

/-- Whether a candidate name contains a rejected character
(Python `any(x in value for x in bad_vals)`). -/
def hasBadNameChar (s : String) : Bool :=
  s.toList.any (fun c => badNameChars.contains c)

/-- The base-class `__on_new_name__` hook, which accepts every name. -/
def onNewNameBase (_ : String) : Bool := true

/-- The `name` setter: reject a value with a bad character, leaving the stored
name unchanged and signalling a `ValueError`; otherwise store the value when
the hook accepts it. -/
def pySetName (current value : String) : String × Option String :=
  if hasBadNameChar value then (current, some "illegal name set!")
  else if onNewNameBase value then (value, none)
  else (current, none)

/-- The setter as an `Except` (a raised `ValueError` becomes `error`). -/
def setNameE (current value : String) : Except String String :=
  match pySetName current value with
  | (n, none) => .ok n
  | (_, some e) => .error e

/-! ## Merge engine (`program/program.py`)

`Program.__push_driver_routine__`, `Program.__push_routine__` and
`Program.push_updates`.  Mutation of the target program becomes state passing;
a raised exception becomes `Except.error` (intermediate mutations of the
in-flight clone are discarded on error, which no modelled claim observes). -/

/-- Rename each tag of a rung through the name setter, substituting the
second instance token; the first raised `ValueError` propagates. -/
def driverRenameTagsAux (s1 o1 : String) (acc : List STag) :
    List STag → Except String (List STag)
  | [] => .ok acc
  | t :: ts =>
    match setNameE t.name (pyReplace t.name s1 o1) with
    | .error e => .error e
    | .ok n => driverRenameTagsAux s1 o1 (acc ++ [{ t with name := n }]) ts

/-- Substitute the second instance token in a rung's text (`rung.text` is a
plain attribute, so its assignment cannot raise) and in its tag names. -/
def driverRewriteRung (s1 o1 : String) (g : SRung) : Except String SRung :=
  match driverRenameTagsAux s1 o1 [] g.tags with
  | .error e => .error e
  | .ok tags => .ok { g with text := pyReplace g.text s1 o1, tags := tags }

/-- Rewrite every rung of the clone in order. -/
def driverRewriteRungs (s1 o1 : String) : List SRung → Except String (List SRung)
  | [] => .ok []
  | g :: gs =>
    match driverRewriteRung s1 o1 g with
    | .error e => .error e
    | .ok g2 =>
      match driverRewriteRungs s1 o1 gs with
      | .error e => .error e
      | .ok gs2 => .ok (g2 :: gs2)

/-- Build the deep-cloned replacement routine for one driver candidate:
both instance tokens are substituted in the routine name (two successive
setter assignments), and only the second token in each rung's text and in
each rung tag's name.  The list indexing is total (`getD`) because the
caller guarantees at least three tokens, as the Python indexing does. -/
def mkDriverClone (r : SRoutine) (ns os : List String) : Except String SRoutine :=
  let s0 := ns.getD 0 ""
  let s1 := ns.getD 1 ""
  let o0 := os.getD 0 ""
  let o1 := os.getD 1 ""
  match setNameE r.name (pyReplace r.name s0 o0) with
  | .error e => .error e
  | .ok n1 =>
    match setNameE n1 (pyReplace n1 s1 o1) with
    | .error e => .error e
    | .ok n2 =>
      match driverRewriteRungs s1 o1 r.rungs with
      | .error e => .error e
      | .ok rungs => .ok { r with name := n2, rungs := rungs }

/-- The update loop of `__push_driver_routine__`: for each gathered candidate,
remove it, append the rewritten clone (name-guarded), and accumulate the
clone's dependencies. -/
def driverEntriesFold (fuel : Nat) (routine : SRoutine) (split : List String) :
    List SRoutine → SProgram → SDeps → Except String (SProgram × SDeps)
  | [], p, d => .ok (p, d)
  | e :: es, p, d => do
    let os := pySplitOn '_' e.name
    let p := { p with routines := pyRemoveFirstByName SRoutine.name p.routines e.name }
    let newR ← mkDriverClone routine split os
    let p := { p with routines := safeAddItem SRoutine.name p.routines newR }
    driverEntriesFold fuel routine split es p (extendDeps d (routineGetDependencies fuel newR))

/-- `Program.__push_driver_routine__`: reject a source name with fewer than 3
underscore tokens before touching the target, gather the target routines with
at least 3 tokens and a matching `tokens[2:]` suffix, then rewrite and swap in
each candidate. -/
def pushDriverRoutine (fuel : Nat) (routine : SRoutine) (otherProg : SProgram) :
    Except String (SProgram × SDeps) :=
  let split := pySplitOn '_' routine.name
  if split.length < 3 then
    .error ("Master Driver Routine Naming Violation: " ++ routine.name)
  else
    let entries := otherProg.routines.filter (fun oR =>
      let os := pySplitOn '_' oR.name
      !(decide (os.length < 3)) && decide (split.drop 2 = os.drop 2))
    driverEntriesFold fuel routine split entries otherProg emptyDeps

/-- `Program.__push_routine__`: no-op for a missing routine; otherwise select
the target by exact name, or — with similarity finding on — the first target
whose name ratio reaches the gain; remove the selection (first name match),
append the source routine (name-guarded), and extend the target's tags with
the source's program-tag dependencies. -/
def pushRoutineFn (fuel : Nat) (routine : Option SRoutine) (otherProgram : SProgram)
    (useSimilarityFinding : Bool) (gNum gDen : Nat) : SProgram × SDeps :=
  match routine with
  | none => (otherProgram, emptyDeps)
  | some r =>
    let deps := routineGetDependencies fuel r
    let target : Option SRoutine :=
      if useSimilarityFinding then
        otherProgram.routines.find? (fun x => ratioGeGain r.name x.name gNum gDen)
      else pyFindByName SRoutine.name otherProgram.routines r.name
    let routines := match target with
      | some t => pyRemoveFirstByName SRoutine.name otherProgram.routines t.name
      | none => otherProgram.routines
    let routines := safeAddItem SRoutine.name routines r
    let tags := safeAddAll STag.name otherProgram.tags deps.programTags
    ({ otherProgram with routines := routines, tags := tags }, deps)

/-- `Program.main_routine`: the first routine whose role is `MAIN`. -/
def progMainRoutine (p : SProgram) : Option SRoutine :=
  p.routines.find? (fun r => r.descType = some "MAIN")

/-- `Program.driver_routines`: the routines whose role is `DRIVER`. -/
def progDriverRoutines (p : SProgram) : List SRoutine :=
  p.routines.filter (fun r => r.descType = some "DRIVER")

/-- `Program.internal_routines`: the routines whose role is `INTERNAL`. -/
def progInternalRoutines (p : SProgram) : List SRoutine :=
  p.routines.filter (fun r => r.descType = some "INTERNAL")

/-- The driver loop of `Program.push_updates`: a raised naming violation
propagates, aborting the remaining merges and returning the target state
reached so far. -/
def pushDriversLoop (fuel : Nat) : List SRoutine → SProgram → SDeps →
    SProgram × Except String SDeps
  | [], p, d => (p, .ok d)
  | r :: rs, p, d =>
    match pushDriverRoutine fuel r p with
    | .error msg => (p, .error msg)
    | .ok (p, d1) => pushDriversLoop fuel rs p (extendDeps d d1)

/-- `Program.push_updates`: push the MAIN routine, then every driver routine,
then — unless the source program's role is `DEVICE` — every internal routine
with the given similarity settings; the final target state is returned
together with the accumulated dependencies or the propagated error. -/
def progPushUpdates (fuel : Nat) (src tgt : SProgram)
    (useSimilarityFinding : Bool) (gNum gDen : Nat) : SProgram × Except String SDeps :=
  let deps := progGetDependencies fuel false src
  let mainStep := pushRoutineFn fuel (progMainRoutine src) tgt false gNum gDen
  let tgt := mainStep.1
  let deps := extendDeps deps mainStep.2
  match pushDriversLoop fuel (progDriverRoutines src) tgt deps with
  | (tgt, .error msg) => (tgt, .error msg)
  | (tgt, .ok deps) =>
    if src.descType = some "DEVICE" then (tgt, .ok deps)
    else
      let fin := (progInternalRoutines src).foldl
        (fun (st : SProgram × SDeps) r =>
          let step := pushRoutineFn fuel (some r) st.1 useSimilarityFinding gNum gDen
          (step.1, extendDeps st.2 step.2))
        (tgt, deps)
      (fin.1, .ok fin.2)

/-! ## Rebind pass (`tag/tag.py`, `datatype/datatype.py`, `task/task.py`)

`Controller.rebind` hands every collection the same `kwargs`; each list's
generic `rebind` loops over its elements in place, so an element's rebind sees
the already-updated prefix of its own collection. -/

/-- `PyLogixObject.rebind` applied to a tag: re-parse the description. -/
def tagSetProps (t : STag) : STag :=
  { t with descProps := getProperties (propertyListFromString t.description) }

/-- `Tag.rebind`: re-parse the description, then — for an alias tag whose
target resolves in the tag collection — copy the target's datatype reference
and datatype meta name. -/
def rebindTag (env : List STag) (t : STag) : STag :=
  let t1 := tagSetProps t
  match t.aliasFor with
  | none => t1
  | some a =>
    if a = "" then t1
    else
      match pyFindByName STag.name env a with
      | none => t1
      | some u => { t1 with datatype := u.datatype, datatypeMetaName := u.datatypeMetaName }

/-- The in-place iteration of `TagList.rebind` with `kwargs['tags']` equal to
the list itself: each element is rebound against the already-updated prefix
plus the not-yet-updated suffix. -/
def rebindPassAux (acc : List STag) : List STag → List STag
  | [] => acc
  | t :: rest => rebindPassAux (acc ++ [rebindTag (acc ++ t :: rest) t]) rest

/-- One full `TagList.rebind` pass over a controller tag collection. -/
def rebindPass (l : List STag) : List STag :=
  rebindPassAux [] l

/-- `by_name` against an optional name (Python `None` never equals a name). -/
def byNameOpt {α : Type} (nm : α → String) (l : List α) : Option String → Option α
  | none => none
  | some s => pyFindByName nm l s

/-- `DataTypeMember.rebind`: resolve the datatype reference from the meta name
only while it is still unresolved. -/
def memberRebind (datatypesEnv : List SDataType) (m : SMember) : SMember :=
  match m.datatype with
  | some _ => m
  | none => m.withDatatype (byNameOpt SDataType.name datatypesEnv m.datatypeMetaName)

/-- `Task.rebind`: re-parse the description and re-derive the scheduled
program references from the scheduled program names. -/
def taskRebind (programsEnv : List SProgram) (t : STask) : STask :=
  { t with
    descProps := getProperties (propertyListFromString t.description)
    scheduledPrograms := programsEnv.filter (fun p => p.name ∈ t.scheduledMetaPrograms) }

/-- A tag that takes no alias branch during rebind (Python falsiness of
`self.alias_for`: `None` or the empty string). -/
def tagNonAlias (t : STag) : Bool :=
  t.aliasFor = none || t.aliasFor = some ""

/-- Whether no alias tag of the collection resolves to a tag that is itself an
alias (the hypothesis under which a rebind pass is idempotent). -/
def noAliasChains (l : List STag) : Bool :=
  l.all (fun t =>
    match t.aliasFor with
    | none => true
    | some a =>
      if a = "" then true
      else
        match pyFindByName STag.name l a with
        | none => true
        | some u => tagNonAlias u)

/-- Projection used to exhibit differing rebind states: the name of the
resolved datatype, if any. -/
def tagDatatypeName (t : STag) : Option String :=
  t.datatype.map SDataType.name

/-! ## The remaining rebind methods (`rung/rung.py`, `routine/routine.py`,
`program/program.py`, `datatype/datatype.py`, `module/module.py`,
`add_on_instruction/add_on_instruction.py`, `controller/controller.py`) -/

/-- `str.strip()` at the `String` level (applied to each
`_generator_properties` entry by `Program.rebind`). -/
def pyStripStr (s : String) : String :=
  String.mk (pyStrip s.toList)

/-- `Module` overrides no `rebind`, so the generic list pass applies only the
inherited description re-parse of `PyLogixObject.rebind` to it. -/
def moduleRebind (m : SModule) : SModule :=
  { m with descProps := getProperties (propertyListFromString m.description) }

/-- `AddOnInstructionDefinition` overrides no `rebind` either: only the
inherited description re-parse applies (its nested content is never
rebound). -/
def aoiRebind (a : SAoi) : SAoi :=
  { a with descProps := getProperties (propertyListFromString a.description) }

/-- The controller tag a program-tag step of `Rung.rebind` resolves: `None`
unless the program tag has a truthy `alias_for` that resolves by name in the
controller tag collection. -/
def rungAliasTarget (tagsEnv : List STag) (pt : STag) : Option STag :=
  match pt.aliasFor with
  | none => none
  | some a => if a = "" then none else pyFindByName STag.name tagsEnv a

/-- One step of the second loop of `Rung.rebind`: append the resolved
controller tag to the rung tag list (`TagList.append` is name-guarded). -/
def rungAppendStep (tagsEnv : List STag) (acc : List STag) (pt : STag) : List STag :=
  match rungAliasTarget tagsEnv pt with
  | none => acc
  | some u => safeAddItem STag.name acc u

/-- The whole second loop of `Rung.rebind` over the rung's program tags. -/
def rungTagAppends (tagsEnv : List STag) (pts : List STag) (acc : List STag) : List STag :=
  pts.foldl (rungAppendStep tagsEnv) acc

/-- `Rung.rebind`: the inherited description re-parse, then the two loops.
The first loop only rebinds its local loop variable to a `copy` of the looked
up controller tag, leaving every stored collection untouched; the second loop
appends to `self.tags` the controller alias-targets of the rung's aliased
program tags.  The AOI list is never touched. -/
def rungRebind (tagsEnv : List STag) (g : SRung) : SRung :=
  { g with
    descProps := getProperties (propertyListFromString g.description)
    tags := rungTagAppends tagsEnv g.programTags g.tags }

/-- `Routine.rebind`: the inherited description re-parse (which refreshes the
`description_properties.type` role), then every rung rebound in place. -/
def routineRebind (tagsEnv : List STag) (r : SRoutine) : SRoutine :=
  let props := getProperties (propertyListFromString r.description)
  { r with
    descProps := props
    descType := props.type
    rungs := r.rungs.map (rungRebind tagsEnv) }

/-- The generator expression of `Program.rebind`: the comment property list of
the first rung of a driver whose property list contains `@GENERATOR`, or `[]`
if no rung qualifies. -/
def firstGenProps (rungs : List SRung) : List String :=
  match rungs.find? (fun g => (propertyListFromString g.comment).contains "@GENERATOR") with
  | some g => propertyListFromString g.comment
  | none => []

/-- `Program.rebind`: the inherited description re-parse, every routine
rebound, every program tag rebound against the controller tag collection
(`kwargs['tags']`), then `_generator_properties` overwritten once per rebound
driver routine and finally stripped entry by entry (the strip loop also runs
when no driver overwrote the list). -/
def progRebind (ctrlTags : List STag) (p : SProgram) : SProgram :=
  let props := getProperties (propertyListFromString p.description)
  let routines := p.routines.map (routineRebind ctrlTags)
  let gen := (routines.filter (fun r => r.descType = some "DRIVER")).foldl
      (fun _ r => firstGenProps r.rungs) p.generatorProperties
  { p with
    descProps := props
    descType := props.type
    routines := routines
    tags := p.tags.map (rebindTag ctrlTags)
    generatorProperties := gen.map pyStripStr }

/-- `DataType.rebind`: the inherited description re-parse, then each member
resolved against the (live) controller datatype collection. -/
def dtRebindOne (datatypesEnv : List SDataType) (d : SDataType) : SDataType :=
  .mk d.name d.description (getProperties (propertyListFromString d.description))
    d.isAtomic d.isBaseLogixInstruction
    (d.members.map (memberRebind datatypesEnv))

/-- The in-place iteration of `DataTypeList.rebind` with `kwargs['datatypes']`
equal to the list itself: each datatype is rebound against the
already-updated prefix plus the not-yet-updated suffix. -/
def dtPassAux (acc : List SDataType) : List SDataType → List SDataType
  | [] => acc
  | d :: rest => dtPassAux (acc ++ [dtRebindOne (acc ++ d :: rest) d]) rest

/-- One full `DataTypeList.rebind` pass over a controller datatype
collection. -/
def dtPass (l : List SDataType) : List SDataType :=
  dtPassAux [] l

/-- `controller.Controller` reduced to the state `Controller.rebind`
touches: identity, description state and the six collections the shared
`kwargs` carries. -/
structure SController where
  name : String
  description : Option String
  descProps : DescriptionProperties
  datatypes : List SDataType
  tags : List STag
  modules : List SModule
  programs : List SProgram
  addOnInstructions : List SAoi
  tasks : List STask

/-- `Controller.rebind`: one `kwargs` holding the live collections is handed to
`datatypes`, `tags`, `modules`, `programs`, `add_on_instructions` and `tasks`
in that order, so programs are rebound against the already-rebound controller
tags and tasks against the already-rebound programs. -/
def controllerRebind (c : SController) : SController :=
  let datatypes := dtPass c.datatypes
  let tags := rebindPass c.tags
  let modules := c.modules.map moduleRebind
  let programs := c.programs.map (progRebind tags)
  let aois := c.addOnInstructions.map aoiRebind
  let tasks := c.tasks.map (taskRebind programs)
  { c with
    descProps := getProperties (propertyListFromString c.description)
    datatypes := datatypes
    tags := tags
    modules := modules
    programs := programs
    addOnInstructions := aois
    tasks := tasks }

/-! ## Accumulation predicate and duplicate-freedom (claim C5 vocabulary) -/

/-- The lists obtainable from the empty bucket by name-guarded additions —
exactly how every `get_dependencies` implementation grows a bucket. -/
inductive SafeBuilt {α : Type} (nm : α → String) : List α → Prop where
  | nil : SafeBuilt nm []
  | add (l : List α) (x : α) : SafeBuilt nm l → SafeBuilt nm (safeAddItem nm l x)

/-- No two entries of the bucket share a name. -/
def bucketNodup {α : Type} (nm : α → String) (l : List α) : Prop :=
  (l.map nm).Nodup

/-- A dependency set whose every bucket was grown by name-guarded additions. -/
def AccumulatedDeps (d : SDeps) : Prop :=
  SafeBuilt SAoi.name d.addOnInstructions ∧ SafeBuilt SDataType.name d.datatypes ∧
    SafeBuilt SModule.name d.modules ∧ SafeBuilt SProgram.name d.programs ∧
    SafeBuilt STag.name d.tags ∧ SafeBuilt STag.name d.programTags ∧
    SafeBuilt STask.name d.tasks

/-- Every bucket of the dependency set is duplicate-free by name. -/
def NodupDeps (d : SDeps) : Prop :=
  bucketNodup SAoi.name d.addOnInstructions ∧ bucketNodup SDataType.name d.datatypes ∧
    bucketNodup SModule.name d.modules ∧ bucketNodup SProgram.name d.programs ∧
    bucketNodup STag.name d.tags ∧ bucketNodup STag.name d.programTags ∧
    bucketNodup STask.name d.tasks

/-! ## Relation used for the rebind idempotence proof (claim C4) -/

/-- Two tag states that a rebind step cannot tell apart as lookup targets:
same identity fields, and the same resolved datatype data whenever the tag is
not an alias (alias targets are required to be non-aliases by the
no-alias-chain hypothesis, and only their datatype fields are ever copied). -/
def TagRel (u v : STag) : Prop :=
  u.name = v.name ∧ u.aliasFor = v.aliasFor ∧ u.description = v.description ∧
    (tagNonAlias u = true → u.datatype = v.datatype ∧ u.datatypeMetaName = v.datatypeMetaName)

/-- `TagRel` lifted pointwise to tag collections. -/
def EnvRel (l₁ l₂ : List STag) : Prop :=
  List.Forall₂ TagRel l₁ l₂

/-! ## Concrete instances used by the counterexamples and witnesses -/

/-- A plain tag with no alias, no datatype and an empty description. -/
def plainTag (n : String) : STag :=
  ⟨n, none, none, none, none, emptyDescriptionProperties⟩

/-- The tag referenced by the driver source rung. -/
def tagPumpRun : STag := plainTag "M01_PumpA_Run"

/-- The single rung of the driver source routine: its text and its referenced
tag both mention the first instance token `M01`. -/
def rungPump : SRung :=
  ⟨"XIC(M01_PumpA_Run)OTE(M01_Run)", none, emptyDescriptionProperties, none, [tagPumpRun], [], []⟩

/-- The master driver routine `M01_PumpA_Start` of the worked spec example. -/
def srcDriverRoutine : SRoutine :=
  ⟨"M01_PumpA_Start", none, emptyDescriptionProperties, some "DRIVER", [rungPump]⟩

/-- The matching target routine `M02_PumpB_Start`. -/
def tgtDriverRoutine : SRoutine :=
  ⟨"M02_PumpB_Start", none, emptyDescriptionProperties, some "DRIVER", []⟩

/-- The target program holding only `M02_PumpB_Start`. -/
def tgtProgramDriver : SProgram :=
  ⟨"TargetProg", none, emptyDescriptionProperties, some "ZONE", [], [], [tgtDriverRoutine]⟩

/-- Names of the routines of a successful driver push (empty on error). -/
def pushedRoutineNames (e : Except String (SProgram × SDeps)) : List String :=
  match e with
  | .ok (p, _) => p.routines.map SRoutine.name
  | .error _ => []

/-- Rung texts, per routine, of a successful driver push (empty on error). -/
def pushedRungTexts (e : Except String (SProgram × SDeps)) : List (List String) :=
  match e with
  | .ok (p, _) => p.routines.map (fun r => r.rungs.map SRung.text)
  | .error _ => []

/-- Rung tag names, per routine and rung, of a successful driver push. -/
def pushedRungTagNames (e : Except String (SProgram × SDeps)) : List (List (List String)) :=
  match e with
  | .ok (p, _) => p.routines.map (fun r => r.rungs.map (fun g => g.tags.map STag.name))
  | .error _ => []

/-- The error of an `Except`, if any. -/
def exceptErrMsg {ε α : Type} (e : Except ε α) : Option ε :=
  match e with
  | .error m => some m
  | .ok _ => none

/-- Internal routine pushed by similarity in the C3 scenario. -/
def srcSimRoutine : SRoutine :=
  ⟨"AAAAAAAAAA", none, emptyDescriptionProperties, some "INTERNAL", []⟩

/-- First target routine: ratio 20/21 against the source — above 0.95 but not
the best match. -/
def tgtSimFirst : SRoutine :=
  ⟨"AAAAAAAAAAB", none, emptyDescriptionProperties, some "INTERNAL", []⟩

/-- Second target routine: identical name, ratio 1 — the best match. -/
def tgtSimBest : SRoutine :=
  ⟨"AAAAAAAAAA", none, emptyDescriptionProperties, some "INTERNAL", []⟩

/-- The similarity target program, first-above-threshold routine first. -/
def tgtProgramSim : SProgram :=
  ⟨"TgtSim", none, emptyDescriptionProperties, some "ZONE", [], [], [tgtSimFirst, tgtSimBest]⟩

/-- A user datatype referenced by the alias-chain counterexample. -/
def dtMyUDT : SDataType := .mk "MyUDT" none emptyDescriptionProperties false false []

/-- Alias tag pointing at another alias tag. -/
def tagAliasA : STag := ⟨"TagA", none, some "TagB", none, none, emptyDescriptionProperties⟩

/-- Alias tag pointing at the base tag. -/
def tagAliasB : STag := ⟨"TagB", none, some "TagC", none, none, emptyDescriptionProperties⟩

/-- The base tag carrying the datatype. -/
def tagBaseC : STag := ⟨"TagC", none, none, some dtMyUDT, some "MyUDT", emptyDescriptionProperties⟩

/-- The alias-chain collection `A → B → C`. -/
def tagsChain : List STag := [tagAliasA, tagAliasB, tagBaseC]

/-- A chain-free collection (one alias whose target is a base tag). -/
def tagsNoChain : List STag := [tagAliasB, tagBaseC]

/-- Source program of the aborted-push counterexample: a malformed driver
followed by a well-formed driver that matches the target. -/
def badDriver : SRoutine := ⟨"A_B", none, emptyDescriptionProperties, some "DRIVER", []⟩

/-- The well-formed driver whose merge the propagated error skips. -/
def goodDriver : SRoutine :=
  ⟨"X_Y_Z", none, emptyDescriptionProperties, some "DRIVER",
    [⟨"XIC(Y_Flag)", none, emptyDescriptionProperties, none, [], [], []⟩]⟩

/-- The source program `[A_B, X_Y_Z]`. -/
def srcProgAbort : SProgram :=
  ⟨"Src", none, emptyDescriptionProperties, some "ZONE", [], [], [badDriver, goodDriver]⟩

/-- The target routine whose suffix matches the well-formed driver. -/
def tgtRoutineAbort : SRoutine :=
  ⟨"P_Q_Z", none, emptyDescriptionProperties, some "DRIVER", []⟩

/-- The target program of the aborted-push counterexample. -/
def tgtProgAbort : SProgram :=
  ⟨"Tgt", none, emptyDescriptionProperties, some "ZONE", [], [], [tgtRoutineAbort]⟩

/-- An atomic datatype that nonetheless declares members, to exhibit that
terminality ignores them. -/
def witAtomicDT : SDataType :=
  .mk "ATOMICX" none emptyDescriptionProperties true false
    [.mk "PRE" none (some "DINT") 0 (some "Decimal") false none]

/-- A below-threshold routine listed before the first match in the C3
witness scenario. -/
def simBelowZ : SRoutine := ⟨"ZZZZ", none, emptyDescriptionProperties, some "INTERNAL", []⟩

/-- A below-threshold routine listed after the first match in the C3 witness
scenario. -/
def simBelowB : SRoutine := ⟨"BBBB", none, emptyDescriptionProperties, some "INTERNAL", []⟩

/-- The C3 witness target program: below-threshold, first-above-threshold,
below-threshold. -/
def tgtProgramSimW : SProgram :=
  ⟨"TgtW", none, emptyDescriptionProperties, some "ZONE", [], [],
    [simBelowZ, tgtSimFirst, simBelowB]⟩

/-- A small accumulated dependency set for the C5 witness. -/
def witDeps : SDeps :=
  { emptyDeps with
    datatypes := safeAddItem SDataType.name (safeAddItem SDataType.name [] dtMyUDT) witAtomicDT
    tags := safeAddItem STag.name [] tagBaseC }

/-- A rung for the C4 witness controller: it references the chain-free tags
and carries a `@GENERATOR` comment for the generator-property path. -/
def witRungC4 : SRung :=
  ⟨"XIC(TagB)OTE(TagC)", none, emptyDescriptionProperties,
    some "<@RUNG><@GENERATOR  G1 >", [tagBaseC], [tagAliasB], []⟩

/-- A DRIVER routine for the C4 witness controller. -/
def witRoutineC4 : SRoutine :=
  ⟨"R_Main", some "<@ROUTINE><@TYPE DRIVER>", emptyDescriptionProperties,
    none, [witRungC4]⟩

/-- A program for the C4 witness controller. -/
def witProgramC4 : SProgram :=
  ⟨"ProgA", some "<@PROGRAM><@TYPE ZONE>", emptyDescriptionProperties,
    none, [], [tagAliasB], [witRoutineC4]⟩

/-- A task for the C4 witness controller, scheduling its program by name. -/
def witTaskC4 : STask :=
  ⟨"TaskA", none, emptyDescriptionProperties, ["ProgA"], []⟩

/-- The C4 witness controller: its tag collection is the chain-free alias
pair, and every other collection is populated. -/
def witController : SController :=
  ⟨"Ctrl", some "<@CONTROLLER><@TYPE CPU>", emptyDescriptionProperties,
    [dtMyUDT, witAtomicDT], tagsNoChain,
    [⟨"Mod1", none, emptyDescriptionProperties⟩], [witProgramC4],
    [⟨"Aoi1", none, emptyDescriptionProperties⟩], [witTaskC4]⟩

/-! ## Theorems -/

/-- C6: for every DataType with `is_atomic` or `is_base_logix_instruction`
true, `get_dependencies` returns an empty dependency set, regardless of the
`include_root` flag and of the members (fuel quantifies the recursion
bound). -/
theorem claim_C6 (fuel : Nat) (includeRoot : Bool) (dt : SDataType)
    (h : dt.isAtomic = true ∨ dt.isBaseLogixInstruction = true) :
    dtGetDependencies fuel includeRoot dt = emptyDeps := by
  cases fuel with
  | zero => rfl
  | succ n =>
    have hb : (dt.isAtomic || dt.isBaseLogixInstruction) = true := by
      rcases h with h | h <;> simp [h]
    simp [dtGetDependencies, hb]

/-- Witness for C6: a concrete atomic datatype with a member still yields the
empty dependency set for `include_root = true`. -/
theorem claim_C6_witness :
    (witAtomicDT.isAtomic = true ∨ witAtomicDT.isBaseLogixInstruction = true) ∧
      dtGetDependencies 7 true witAtomicDT = emptyDeps :=
  ⟨Or.inl rfl, claim_C6 7 true witAtomicDT (Or.inl rfl)⟩

/-- C7: a member read with declared type `BIT` is stored with meta name
`BOOL`; it is emitted as `BIT` exactly when its dimension is 0, and as `BOOL`
for dimension at least 1. -/
theorem claim_C7 (name : String) (description : Option String) (dimensions : Nat)
    (radix : Option String) (hidden : Bool) :
    (dataTypeMemberInit name description (some "BIT") dimensions radix hidden).datatypeMetaName
        = some "BOOL" ∧
      (memberEmitDataType (dataTypeMemberInit name description (some "BIT") dimensions radix hidden)
          = some "BIT" ↔ dimensions = 0) ∧
      (1 ≤ dimensions →
        memberEmitDataType (dataTypeMemberInit name description (some "BIT") dimensions radix hidden)
          = some "BOOL") := by
  refine ⟨rfl, ?_, ?_⟩
  · constructor
    · intro h
      by_contra hd
      simp [memberEmitDataType, dataTypeMemberInit, SMember.datatypeMetaName,
        SMember.dimensions, hd] at h
    · intro h
      simp [memberEmitDataType, dataTypeMemberInit, SMember.datatypeMetaName,
        SMember.dimensions, h]
  · intro h
    have hd : dimensions ≠ 0 := by omega
    simp [memberEmitDataType, dataTypeMemberInit, SMember.datatypeMetaName,
      SMember.dimensions, hd]

/-- Witness for C7: the scalar `BIT` member round-trips to `BIT`, and the same
member at dimension 1 emits `BOOL`. -/
theorem claim_C7_witness :
    (dataTypeMemberInit "B1" none (some "BIT") 0 none false).datatypeMetaName = some "BOOL" ∧
      memberEmitDataType (dataTypeMemberInit "B1" none (some "BIT") 0 none false) = some "BIT" ∧
      memberEmitDataType (dataTypeMemberInit "B1" none (some "BIT") 1 none false) = some "BOOL" :=
  ⟨(claim_C7 "B1" none 0 none false).1,
    (claim_C7 "B1" none 0 none false).2.1.mpr rfl,
    (claim_C7 "B1" none 1 none false).2.2 (by decide)⟩

/-- C10 (implicit): every scalar member whose stored meta name is `BOOL` is
emitted with DataType `BIT`, including one constructed directly with declared
type `BOOL` — so an authored scalar `BOOL` does not round-trip to `BOOL`. -/
theorem claim_C10 :
    (∀ m : SMember, m.datatypeMetaName = some "BOOL" → m.dimensions = 0 →
        memberEmitDataType m = some "BIT") ∧
      (∀ (name : String) (description : Option String) (radix : Option String) (hidden : Bool),
        (dataTypeMemberInit name description (some "BOOL") 0 radix hidden).datatypeMetaName
            = some "BOOL" ∧
          memberEmitDataType (dataTypeMemberInit name description (some "BOOL") 0 radix hidden)
            = some "BIT" ∧
          memberEmitDataType (dataTypeMemberInit name description (some "BOOL") 0 radix hidden)
            ≠ some "BOOL") := by
  constructor
  · intro m hm hd
    simp [memberEmitDataType, hm, hd]
  · intro name description radix hidden
    refine ⟨rfl, ?_, ?_⟩
    · simp [memberEmitDataType, dataTypeMemberInit, SMember.datatypeMetaName, SMember.dimensions]
    · simp [memberEmitDataType, dataTypeMemberInit, SMember.datatypeMetaName, SMember.dimensions]

/-- Witness for C10: a concrete scalar member authored as `BOOL` is emitted as
`BIT`. -/
theorem claim_C10_witness :
    memberEmitDataType (dataTypeMemberInit "EN" none (some "BOOL") 0 none false) = some "BIT" :=
  claim_C10.1 (dataTypeMemberInit "EN" none (some "BOOL") 0 none false) rfl rfl

/-- C8: assigning a name containing one of the rejected punctuation or
whitespace characters raises the validation error and leaves the stored name
unchanged. -/
theorem claim_C8 (current value : String) (h : hasBadNameChar value = true) :
    pySetName current value = (current, some "illegal name set!") := by
  simp [pySetName, h]

/-- Witness for C8: assigning `"My Tag"` (a name with a space) fails and keeps
the previous name. -/
theorem claim_C8_witness :
    hasBadNameChar "My Tag" = true ∧
      pySetName "MyTag" "My Tag" = ("MyTag", some "illegal name set!") :=
  ⟨by decide, claim_C8 "MyTag" "My Tag" (by decide)⟩

/-- C2 counterexample: the instruction miner's output for
`XIC(Start)OTE(Motor1)` also contains the empty token produced by the
fragment after the final `)`, so the mined instruction set is not exactly
`{XIC, OTE}`. -/
theorem claim_C2_counterexample :
    "" ∈ getInstructionMetas "XIC(Start)OTE(Motor1)" ∧ "" ≠ "XIC" ∧ "" ≠ "OTE" := by
  decide

/-- C2 (amended): the tag sets are exactly `{Start, Motor1}` and
`{Setpoint, Output}` (bracket suffix stripped), while each mined instruction
set additionally contains the empty token from the trailing split fragment:
`{XIC, OTE, ""}` and `{MOV, ""}`. -/
theorem claim_C2_amended (s : String) :
    (s ∈ getTagMetas "XIC(Start)OTE(Motor1)" ↔ s = "Start" ∨ s = "Motor1") ∧
      (s ∈ getInstructionMetas "XIC(Start)OTE(Motor1)" ↔ s = "XIC" ∨ s = "OTE" ∨ s = "") ∧
      (s ∈ getTagMetas "MOV(Setpoint[2],Output)" ↔ s = "Setpoint" ∨ s = "Output") ∧
      (s ∈ getInstructionMetas "MOV(Setpoint[2],Output)" ↔ s = "MOV" ∨ s = "") := by
  have h1 : getTagMetas "XIC(Start)OTE(Motor1)" = ["Start", "Motor1"] := by decide
  have h2 : getInstructionMetas "XIC(Start)OTE(Motor1)" = ["XIC", "OTE", ""] := by decide
  have h3 : getTagMetas "MOV(Setpoint[2],Output)" = ["Setpoint", "Output"] := by decide
  have h4 : getInstructionMetas "MOV(Setpoint[2],Output)" = ["MOV", ""] := by decide
  rw [h1, h2, h3, h4]
  simp

/-- A present name lookup makes `safeAddItem` a no-op. -/
theorem safeAddItem_of_mem {α : Type} (nm : α → String) (l : List α) (x : α)
    (h : ∃ y, pyFindByName nm l (nm x) = some y) : safeAddItem nm l x = l := by
  obtain ⟨y, hy⟩ := h
  simp [safeAddItem, hy]

/-- Membership makes the name lookup succeed. -/
theorem pyFindByName_of_mem {α : Type} (nm : α → String) (l : List α) (x : α)
    (hx : x ∈ l) : ∃ y, pyFindByName nm l (nm x) = some y := by
  induction l with
  | nil => cases hx
  | cons a as ih =>
    by_cases ha : nm a = nm x
    · exact ⟨a, by simp [pyFindByName, ha]⟩
    · have hx2 : x ∈ as := by
        rcases List.mem_cons.mp hx with h | h
        · exact absurd (by rw [h]) ha
        · exact h
      obtain ⟨y, hy⟩ := ih hx2
      exact ⟨y, by simp [pyFindByName, ha, hy]⟩

/-- Adding only already-present names leaves a bucket unchanged. -/
theorem safeAddAll_of_mem {α : Type} (nm : α → String) (l₁ l₂ : List α)
    (h : ∀ x ∈ l₂, ∃ y, pyFindByName nm l₁ (nm x) = some y) :
    safeAddAll nm l₁ l₂ = l₁ := by
  induction l₂ with
  | nil => rfl
  | cons a as ih =>
    have ha := safeAddItem_of_mem nm l₁ a (h a (by simp))
    show safeAddAll nm (safeAddItem nm l₁ a) as = l₁
    rw [ha]
    exact ih (fun x hx => h x (by simp [hx]))

/-- Self-extension of a bucket is a no-op. -/
theorem safeAddAll_self {α : Type} (nm : α → String) (l : List α) :
    safeAddAll nm l l = l :=
  safeAddAll_of_mem nm l l (fun x hx => pyFindByName_of_mem nm l x hx)

/-- A failed name lookup means the name is absent from the bucket. -/
theorem pyFindByName_none {α : Type} (nm : α → String) (l : List α) (s : String)
    (h : pyFindByName nm l s = none) : s ∉ l.map nm := by
  induction l with
  | nil => simp
  | cons a as ih =>
    by_cases ha : nm a = s
    · simp [pyFindByName, ha] at h
    · have h2 : pyFindByName nm as s = none := by
        simpa [pyFindByName, ha] using h
      simp [ih h2, ha, Ne.symm ha]

/-- Name-guarded accumulation never creates duplicate names. -/
theorem safeBuilt_nodup {α : Type} (nm : α → String) {l : List α}
    (h : SafeBuilt nm l) : bucketNodup nm l := by
  induction h with
  | nil => simp [bucketNodup]
  | add l x _ ih =>
    unfold safeAddItem
    cases hfind : pyFindByName nm l (nm x) with
    | some y => exact ih
    | none =>
      have hnotin : nm x ∉ l.map nm := pyFindByName_none nm l (nm x) hfind
      simpa [bucketNodup, List.nodup_append] using And.intro ih hnotin

/-- C5: dependency accumulation is idempotent — extending any dependency set
with itself leaves it unchanged — and duplicate-free: every bucket of a
dependency set grown by name-guarded additions has pairwise distinct names. -/
theorem claim_C5 :
    (∀ d : SDeps, extendDeps d d = d) ∧
      (∀ d : SDeps, AccumulatedDeps d → NodupDeps d) := by
  constructor
  · intro d
    show SDeps.mk (safeAddAll SAoi.name d.addOnInstructions d.addOnInstructions)
        (safeAddAll SDataType.name d.datatypes d.datatypes)
        (safeAddAll SModule.name d.modules d.modules)
        (safeAddAll SProgram.name d.programs d.programs)
        (safeAddAll STag.name d.tags d.tags)
        (safeAddAll STag.name d.programTags d.programTags)
        (safeAddAll STask.name d.tasks d.tasks) = d
    rw [safeAddAll_self, safeAddAll_self, safeAddAll_self, safeAddAll_self,
      safeAddAll_self, safeAddAll_self, safeAddAll_self]
  · intro d h
    obtain ⟨h1, h2, h3, h4, h5, h6, h7⟩ := h
    exact ⟨safeBuilt_nodup _ h1, safeBuilt_nodup _ h2, safeBuilt_nodup _ h3,
      safeBuilt_nodup _ h4, safeBuilt_nodup _ h5, safeBuilt_nodup _ h6,
      safeBuilt_nodup _ h7⟩

/-- Witness for C5: a concretely accumulated dependency set is unchanged by
self-extension and has duplicate-free buckets. -/
theorem claim_C5_witness :
    extendDeps witDeps witDeps = witDeps ∧ NodupDeps witDeps := by
  refine ⟨claim_C5.1 witDeps, claim_C5.2 witDeps ⟨?_, ?_, ?_, ?_, ?_, ?_, ?_⟩⟩
  · exact SafeBuilt.nil
  · show SafeBuilt SDataType.name
      (safeAddItem SDataType.name (safeAddItem SDataType.name [] dtMyUDT) witAtomicDT)
    exact SafeBuilt.add _ _ (SafeBuilt.add _ _ SafeBuilt.nil)
  · exact SafeBuilt.nil
  · exact SafeBuilt.nil
  · show SafeBuilt STag.name (safeAddItem STag.name [] tagBaseC)
    exact SafeBuilt.add _ _ SafeBuilt.nil
  · exact SafeBuilt.nil
  · exact SafeBuilt.nil

/-- C1 counterexample: pushing driver `M01_PumpA_Start` against a target
containing `M02_PumpB_Start` yields a replacement whose rung text and tag
names still contain the first source token `M01` — only `PumpA` was
substituted there — contradicting the claim that token[0] and token[1] are
substituted everywhere. -/
theorem claim_C1_counterexample :
    pushedRungTexts (pushDriverRoutine 9 srcDriverRoutine tgtProgramDriver)
        = [["XIC(M01_PumpB_Run)OTE(M01_Run)"]] ∧
      pushedRungTagNames (pushDriverRoutine 9 srcDriverRoutine tgtProgramDriver)
        = [[["M01_PumpB_Run"]]] ∧
      pushedRoutineNames (pushDriverRoutine 9 srcDriverRoutine tgtProgramDriver)
        = ["M02_PumpB_Start"] ∧
      "XIC(M01_PumpB_Run)OTE(M01_Run)" ≠ "XIC(M02_PumpB_Run)OTE(M02_Run)" ∧
      "M01_PumpB_Run" ≠ "M02_PumpB_Run" := by
  decide

/-- A bad-character-free rename makes the setter succeed. -/
theorem setNameE_ok (current value : String) (h : hasBadNameChar value = false) :
    setNameE current value = .ok value := by
  simp [setNameE, pySetName, h, onNewNameBase]

/-- Tag renaming succeeds and maps the substitution over the tag list when no
renamed tag name has a bad character. -/
theorem driverRenameTagsAux_ok (s1 o1 : String) (acc ts : List STag)
    (h : ∀ t ∈ ts, hasBadNameChar (pyReplace t.name s1 o1) = false) :
    driverRenameTagsAux s1 o1 acc ts
      = .ok (acc ++ ts.map (fun t => { t with name := pyReplace t.name s1 o1 })) := by
  induction ts generalizing acc with
  | nil => simp [driverRenameTagsAux]
  | cons t ts ih =>
    have hset := setNameE_ok t.name (pyReplace t.name s1 o1) (h t (by simp))
    simp only [driverRenameTagsAux, hset]
    rw [ih _ (fun x hx => h x (by simp [hx]))]
    simp

/-- Rewriting the clone's rungs succeeds and maps the substitution over text
and tags when every renamed tag name is bad-character-free. -/
theorem driverRewriteRungs_ok (s1 o1 : String) (gs : List SRung)
    (h : ∀ g ∈ gs, ∀ t ∈ g.tags, hasBadNameChar (pyReplace t.name s1 o1) = false) :
    driverRewriteRungs s1 o1 gs = .ok (gs.map (fun g =>
      { g with text := pyReplace g.text s1 o1
               tags := g.tags.map (fun t => { t with name := pyReplace t.name s1 o1 }) })) := by
  induction gs with
  | nil => rfl
  | cons g gs ih =>
    have hg : driverRewriteRung s1 o1 g = .ok
        { g with text := pyReplace g.text s1 o1
                 tags := g.tags.map (fun t => { t with name := pyReplace t.name s1 o1 }) } := by
      unfold driverRewriteRung
      rw [driverRenameTagsAux_ok s1 o1 [] g.tags (h g (by simp))]
      simp
    simp only [driverRewriteRungs, hg, ih (fun g2 hg2 t ht => h g2 (by simp [hg2]) t ht)]
    simp

/-- The driver clone construction succeeds and performs exactly the source's
substitutions: both tokens in the name, the second token in rung texts and
tag names. -/
theorem mkDriverClone_ok (r : SRoutine) (s0 s1 o0 o1 : String) (nrest orest : List String)
    (h1 : hasBadNameChar (pyReplace r.name s0 o0) = false)
    (h2 : hasBadNameChar (pyReplace (pyReplace r.name s0 o0) s1 o1) = false)
    (h3 : ∀ g ∈ r.rungs, ∀ t ∈ g.tags, hasBadNameChar (pyReplace t.name s1 o1) = false) :
    mkDriverClone r (s0 :: s1 :: nrest) (o0 :: o1 :: orest)
      = .ok { r with
          name := pyReplace (pyReplace r.name s0 o0) s1 o1
          rungs := r.rungs.map (fun g => { g with
            text := pyReplace g.text s1 o1
            tags := g.tags.map (fun t => { t with name := pyReplace t.name s1 o1 }) }) } := by
  unfold mkDriverClone
  simp only [List.getD_cons_zero, List.getD_cons_succ,
    setNameE_ok r.name (pyReplace r.name s0 o0) h1,
    setNameE_ok (pyReplace r.name s0 o0) (pyReplace (pyReplace r.name s0 o0) s1 o1) h2,
    driverRewriteRungs_ok s1 o1 r.rungs h3]

/-- C1 (amended): for a source driver routine with at least 3 underscore
tokens pushed against a target program holding exactly one routine with at
least 3 tokens and a matching `tokens[2:]` suffix, the target routine is
replaced by a clone of the source in which token[0] and token[1] are
substituted in the routine name, while in every rung's text and in every rung
tag's name only token[1] is substituted (token[0] occurrences are left
as-is); the suffix tokens are left verbatim.  The `hasBadNameChar`
hypotheses record that the substituted names pass the name-setter
validation, as any well-formed names do. -/
theorem claim_C1_amended (fuel : Nat) (r t : SRoutine) (p : SProgram)
    (s0 s1 o0 o1 : String) (srest : List String)
    (hsplit : pySplitOn '_' r.name = s0 :: s1 :: srest)
    (hosplit : pySplitOn '_' t.name = o0 :: o1 :: srest)
    (hsne : srest ≠ [])
    (hroutines : p.routines = [t])
    (h1 : hasBadNameChar (pyReplace r.name s0 o0) = false)
    (h2 : hasBadNameChar (pyReplace (pyReplace r.name s0 o0) s1 o1) = false)
    (h3 : ∀ g ∈ r.rungs, ∀ tg ∈ g.tags, hasBadNameChar (pyReplace tg.name s1 o1) = false) :
    ∃ d, pushDriverRoutine fuel r p = .ok
      ({ p with routines := [{ r with
          name := pyReplace (pyReplace r.name s0 o0) s1 o1
          rungs := r.rungs.map (fun g => { g with
            text := pyReplace g.text s1 o1
            tags := g.tags.map (fun tg => { tg with name := pyReplace tg.name s1 o1 }) }) }] }, d) := by
  have hlpos : 0 < srest.length := List.length_pos.mpr hsne
  have hnlt : ¬ ((s0 :: s1 :: srest) : List String).length < 3 := by
    simp only [List.length_cons]
    omega
  have hnlt2 : ¬ ((o0 :: o1 :: srest) : List String).length < 3 := by
    simp only [List.length_cons]
    omega
  simp only [pushDriverRoutine, hsplit, if_neg hnlt, hroutines]
  simp only [List.filter, hosplit, decide_eq_false hnlt2, List.drop, Bool.not_false,
    decide_True, Bool.and_self, Bool.true_and, decide_eq_true_eq]
  simp only [driverEntriesFold, hosplit,
    mkDriverClone_ok r s0 s1 o0 o1 srest srest h1 h2 h3]
  simp only [bind, Except.bind, hroutines, pyRemoveFirstByName, pyFindByName, safeAddItem]
  simp

/-- Witness for the amended C1: the worked `M01_PumpA_Start` push against
`M02_PumpB_Start` follows the amended substitution discipline. -/
theorem claim_C1_witness :
    ∃ d, pushDriverRoutine 9 srcDriverRoutine tgtProgramDriver = .ok
      ({ tgtProgramDriver with routines := [{ srcDriverRoutine with
          name := pyReplace (pyReplace srcDriverRoutine.name "M01" "M02") "PumpA" "PumpB"
          rungs := srcDriverRoutine.rungs.map (fun g => { g with
            text := pyReplace g.text "PumpA" "PumpB"
            tags := g.tags.map (fun tg =>
              { tg with name := pyReplace tg.name "PumpA" "PumpB" }) }) }] }, d) :=
  claim_C1_amended 9 srcDriverRoutine tgtDriverRoutine tgtProgramDriver
    "M01" "PumpA" "M02" "PumpB" ["Start"]
    (by decide) (by decide) (by decide) rfl (by decide) (by decide) (by decide)

/-- C3 counterexample: with the first-listed target routine at ratio 20/21
(above 0.95) and a later identical-name routine at ratio 1 (the strictly best
match), pushing with similarity enabled removes the first-listed routine —
not the best one — and the name-guarded append then drops the source, leaving
only the untouched best match; the claim instead predicts the best match
replaced and two routines remaining. -/
theorem claim_C3_counterexample :
    ratioGeGain srcSimRoutine.name tgtSimFirst.name 19 20 = true ∧
      ratioGeGain srcSimRoutine.name tgtSimBest.name 19 20 = true ∧
      smRatioNum srcSimRoutine.name tgtSimBest.name * smRatioDen srcSimRoutine.name tgtSimFirst.name
        > smRatioNum srcSimRoutine.name tgtSimFirst.name
            * smRatioDen srcSimRoutine.name tgtSimBest.name ∧
      tgtProgramSim.routines.map SRoutine.name = ["AAAAAAAAAAB", "AAAAAAAAAA"] ∧
      (pushRoutineFn 5 (some srcSimRoutine) tgtProgramSim true 19 20).1.routines.map SRoutine.name
        = ["AAAAAAAAAA"] := by
  decide

/-- `find?` selects the head of the suffix when the prefix fails the
predicate and the suffix head satisfies it. -/
theorem pyFindFirst_append {α : Type} (p : α → Bool) (l1 l2 : List α) (m : α)
    (h1 : ∀ x ∈ l1, p x = false) (hm : p m = true) :
    (l1 ++ m :: l2).find? p = some m := by
  induction l1 with
  | nil => simp [List.find?_cons_of_pos, hm]
  | cons a as ih =>
    have ha : ¬ p a = true := by simp [h1 a (by simp)]
    simpa [List.find?_cons_of_neg _ ha] using ih (fun x hx => h1 x (by simp [hx]))

/-- Removal by name skips a prefix of differently named elements. -/
theorem pyRemoveFirstByName_append {α : Type} (nm : α → String) (l1 l2 : List α) (m : α)
    (h1 : ∀ x ∈ l1, nm x ≠ nm m) :
    pyRemoveFirstByName nm (l1 ++ m :: l2) (nm m) = l1 ++ l2 := by
  induction l1 with
  | nil => simp [pyRemoveFirstByName]
  | cons a as ih =>
    simp only [List.cons_append, pyRemoveFirstByName, if_neg (h1 a (by simp)), List.append_eq]
    rw [ih (fun x hx => h1 x (by simp [hx]))]

/-- A lookup over a list of differently named elements fails. -/
theorem pyFindByName_eq_none {α : Type} (nm : α → String) (l : List α) (s : String)
    (h : ∀ x ∈ l, nm x ≠ s) : pyFindByName nm l s = none := by
  induction l with
  | nil => rfl
  | cons a as ih =>
    simp only [pyFindByName, if_neg (h a (by simp))]
    exact ih (fun x hx => h x (by simp [hx]))

/-- C3 (amended): with similarity matching enabled, the replaced routine is
the first target routine in list order whose name ratio reaches the
threshold — not the highest-ratio one — and its replacement (and, when no
routine reaches the threshold, the plain append of the source) happens only
when no remaining target routine already carries the source routine's name. -/
theorem claim_C3_amended :
    (∀ (fuel gNum gDen : Nat) (src : SRoutine) (tgt : SProgram) (l1 l2 : List SRoutine)
        (m : SRoutine),
      tgt.routines = l1 ++ m :: l2 →
      (∀ x ∈ l1, ratioGeGain src.name x.name gNum gDen = false) →
      ratioGeGain src.name m.name gNum gDen = true →
      (∀ x ∈ l1, x.name ≠ m.name) →
      (∀ x ∈ l1 ++ l2, x.name ≠ src.name) →
      (pushRoutineFn fuel (some src) tgt true gNum gDen).1.routines = l1 ++ l2 ++ [src]) ∧
    (∀ (fuel gNum gDen : Nat) (src : SRoutine) (tgt : SProgram),
      (∀ x ∈ tgt.routines, ratioGeGain src.name x.name gNum gDen = false) →
      (∀ x ∈ tgt.routines, x.name ≠ src.name) →
      (pushRoutineFn fuel (some src) tgt true gNum gDen).1.routines = tgt.routines ++ [src]) := by
  constructor
  · intro fuel gNum gDen src tgt l1 l2 m heq hbelow hm hnm hnsrc
    have hsel : (l1 ++ m :: l2).find? (fun x => ratioGeGain src.name x.name gNum gDen)
        = some m := pyFindFirst_append _ l1 l2 m hbelow hm
    have hrem : pyRemoveFirstByName SRoutine.name (l1 ++ m :: l2) m.name = l1 ++ l2 :=
      pyRemoveFirstByName_append SRoutine.name l1 l2 m hnm
    have hadd : safeAddItem SRoutine.name (l1 ++ l2) src = (l1 ++ l2) ++ [src] := by
      simp [safeAddItem, pyFindByName_eq_none SRoutine.name (l1 ++ l2) src.name hnsrc]
    simp [pushRoutineFn, heq, hsel, hrem, hadd]
  · intro fuel gNum gDen src tgt hbelow hnsrc
    have hfind : tgt.routines.find?
        (fun x => ratioGeGain src.name x.name gNum gDen) = none := by
      apply List.find?_eq_none.mpr
      intro x hx
      simp [hbelow x hx]
    have hadd : safeAddItem SRoutine.name tgt.routines src = tgt.routines ++ [src] := by
      simp [safeAddItem, pyFindByName_eq_none SRoutine.name tgt.routines src.name hnsrc]
    simp [pushRoutineFn, hfind, hadd]

/-- Witness for the amended C3: a below-threshold routine, then the first
above-threshold routine, then another below-threshold routine — the first
above-threshold one is replaced even though it is not an exact match. -/
theorem claim_C3_witness :
    (pushRoutineFn 5 (some srcSimRoutine) tgtProgramSimW true 19 20).1.routines
      = [simBelowZ] ++ [simBelowB] ++ [srcSimRoutine] :=
  claim_C3_amended.1 5 19 20 srcSimRoutine tgtProgramSimW
    [simBelowZ] [simBelowB] tgtSimFirst
    rfl (by decide) (by decide) (by decide) (by decide)

/-- C9 counterexample: with source drivers `[A_B, X_Y_Z]`, the malformed
`A_B` raises and the error propagates out of `push_updates`, so the
well-formed `X_Y_Z` driver is never merged (the matching target `P_Q_Z` keeps
its empty rung list), although merging it alone would have rewritten the
target; this contradicts "only that routine's merge step is aborted". -/
theorem claim_C9_counterexample :
    (progPushUpdates 9 srcProgAbort tgtProgAbort true 19 20).1.routines.map SRoutine.name
        = ["P_Q_Z"] ∧
      (progPushUpdates 9 srcProgAbort tgtProgAbort true 19 20).1.routines.map
          (fun r => r.rungs.map SRung.text) = [[]] ∧
      exceptErrMsg (progPushUpdates 9 srcProgAbort tgtProgAbort true 19 20).2
        = some "Master Driver Routine Naming Violation: A_B" ∧
      pushedRungTexts (pushDriverRoutine 9 goodDriver tgtProgAbort) = [["XIC(Q_Flag)"]] := by
  decide

/-- C9 (amended): a driver routine name with fewer than 3 underscore tokens
makes the push raise an error reporting the offending name, before any
mutation of the target's routine list by that step — but the error
propagates, aborting the remaining routine merges of the whole push as well
(here: a source without a MAIN routine whose first driver is malformed leaves
the target entirely unchanged and ends the push with the error). -/
theorem claim_C9_amended (fuel gNum gDen : Nat) (useSim : Bool) (src tgt : SProgram)
    (d1 : SRoutine) (rest : List SRoutine)
    (hmain : progMainRoutine src = none)
    (hdrivers : progDriverRoutines src = d1 :: rest)
    (hbad : (pySplitOn '_' d1.name).length < 3) :
    progPushUpdates fuel src tgt useSim gNum gDen
      = (tgt, .error ("Master Driver Routine Naming Violation: " ++ d1.name)) := by
  have herr : pushDriverRoutine fuel d1 tgt
      = .error ("Master Driver Routine Naming Violation: " ++ d1.name) := by
    simp only [pushDriverRoutine]
    rw [if_pos hbad]
  simp [progPushUpdates, hmain, hdrivers, pushRoutineFn, pushDriversLoop, herr]

/-- Witness for the amended C9: the concrete `[A_B, X_Y_Z]` source against the
`P_Q_Z` target ends with the propagated error and an untouched target. -/
theorem claim_C9_witness :
    progPushUpdates 9 srcProgAbort tgtProgAbort true 19 20
      = (tgtProgAbort, .error ("Master Driver Routine Naming Violation: " ++ badDriver.name)) :=
  claim_C9_amended 9 19 20 true srcProgAbort tgtProgAbort badDriver [goodDriver]
    rfl rfl (by decide)

/-- C4 counterexample: with an alias chain `TagA → TagB → TagC`, one rebind
pass resolves only one alias level per tag (TagA copies TagB's still-empty
datatype before TagB is updated), so a second pass changes the resolved
state — rebind is not idempotent. -/
theorem claim_C4_counterexample :
    (rebindPass tagsChain).map tagDatatypeName = [none, some "MyUDT", some "MyUDT"] ∧
      (rebindPass (rebindPass tagsChain)).map tagDatatypeName
        = [some "MyUDT", some "MyUDT", some "MyUDT"] ∧
      ([none, some "MyUDT", some "MyUDT"] : List (Option String))
        ≠ [some "MyUDT", some "MyUDT", some "MyUDT"] := by
  decide

/-- A rebind step never changes a tag's name, alias target or description. -/
theorem rebindTag_id_fields (env : List STag) (t : STag) :
    (rebindTag env t).name = t.name ∧ (rebindTag env t).aliasFor = t.aliasFor ∧
      (rebindTag env t).description = t.description := by
  cases h : t.aliasFor with
  | none => simp [rebindTag, h, tagSetProps]
  | some a =>
    by_cases ha : a = ""
    · simp [rebindTag, h, ha, tagSetProps]
    · cases hf : pyFindByName STag.name env a with
      | none => simp [rebindTag, h, ha, hf, tagSetProps]
      | some u => simp [rebindTag, h, ha, hf, tagSetProps]

/-- A rebind step always stores the re-parsed description properties. -/
theorem rebindTag_descProps (env : List STag) (t : STag) :
    (rebindTag env t).descProps = getProperties (propertyListFromString t.description) := by
  cases h : t.aliasFor with
  | none => simp [rebindTag, h, tagSetProps]
  | some a =>
    by_cases ha : a = ""
    · simp [rebindTag, h, ha, tagSetProps]
    · cases hf : pyFindByName STag.name env a with
      | none => simp [rebindTag, h, ha, hf, tagSetProps]
      | some u => simp [rebindTag, h, ha, hf, tagSetProps]

/-- On a non-alias tag, a rebind step only re-parses the description. -/
theorem rebindTag_nonAlias (env : List STag) (t : STag) (h : tagNonAlias t = true) :
    rebindTag env t = tagSetProps t := by
  cases ht : t.aliasFor with
  | none => simp [rebindTag, ht]
  | some a =>
    have ha : a = "" := by
      have h2 := h
      rw [tagNonAlias, ht] at h2
      simpa using h2
    simp [rebindTag, ht, ha]

/-- The alias branch of a rebind step, as an equation. -/
theorem rebindTag_eq_alias (env : List STag) (t : STag) (a : String)
    (hA : t.aliasFor = some a) (ha : a ≠ "") :
    rebindTag env t = match pyFindByName STag.name env a with
      | none => tagSetProps t
      | some u =>
        { tagSetProps t with datatype := u.datatype
                             datatypeMetaName := u.datatypeMetaName } := by
  simp [rebindTag, hA, ha]

/-- Re-parsing the description is a no-op once the parsed properties are
already stored. -/
theorem tagSetProps_of_props (t : STag)
    (h : t.descProps = getProperties (propertyListFromString t.description)) :
    tagSetProps t = t := by
  cases t with
  | mk n d a dt mn props =>
    simp only [tagSetProps]
    simp only [STag.mk.injEq, true_and]
    exact h.symm

/-- Rebinding relates a tag to its own rebound state. -/
theorem tagRel_rebind (env : List STag) (t : STag) : TagRel t (rebindTag env t) := by
  obtain ⟨h1, h2, h3⟩ := rebindTag_id_fields env t
  refine ⟨h1.symm, h2.symm, h3.symm, ?_⟩
  intro hna
  rw [rebindTag_nonAlias env t hna]
  exact ⟨rfl, rfl⟩

/-- `TagRel` is reflexive. -/
theorem tagRel_refl (t : STag) : TagRel t t :=
  ⟨rfl, rfl, rfl, fun _ => ⟨rfl, rfl⟩⟩

/-- `EnvRel` between a list and its elementwise rebinding. -/
theorem envRel_map_rebind (l env : List STag) : EnvRel l (l.map (rebindTag env)) := by
  induction l with
  | nil => exact List.Forall₂.nil
  | cons t ts ih => exact List.Forall₂.cons (tagRel_rebind env t) ih

/-- `EnvRel` is reflexive. -/
theorem envRel_refl (l : List STag) : EnvRel l l := by
  induction l with
  | nil => exact List.Forall₂.nil
  | cons t ts ih => exact List.Forall₂.cons (tagRel_refl t) ih

/-- `EnvRel` is closed under append. -/
theorem envRel_append {l₁ l₂ l₃ l₄ : List STag}
    (h : EnvRel l₁ l₂) (h2 : EnvRel l₃ l₄) : EnvRel (l₁ ++ l₃) (l₂ ++ l₄) := by
  induction h with
  | nil => exact h2
  | cons hr _ ih => exact List.Forall₂.cons hr ih

/-- Name lookups over `EnvRel`-related collections fail together or return
`TagRel`-related tags. -/
theorem pyFindByName_envRel (l₁ l₂ : List STag) (h : EnvRel l₁ l₂) (a : String) :
    (pyFindByName STag.name l₁ a = none ∧ pyFindByName STag.name l₂ a = none) ∨
      ∃ u v, pyFindByName STag.name l₁ a = some u ∧ pyFindByName STag.name l₂ a = some v ∧
        TagRel u v := by
  induction h with
  | nil => exact Or.inl ⟨rfl, rfl⟩
  | @cons u v us vs hr hl ih =>
    by_cases hn : u.name = a
    · refine Or.inr ⟨u, v, ?_, ?_, hr⟩
      · simp [pyFindByName, hn]
      · have hv : v.name = a := by rw [← hr.1]; exact hn
        simp [pyFindByName, hv]
    · have hvn : ¬ v.name = a := by rw [← hr.1]; exact hn
      simp only [pyFindByName, if_neg hn, if_neg hvn]
      exact ih

/-- The per-tag reading of the `noAliasChains` hypothesis. -/
theorem noAliasChains_spec (l : List STag) (h : noAliasChains l = true) :
    ∀ t ∈ l, ∀ a, t.aliasFor = some a → a ≠ "" →
      ∀ u, pyFindByName STag.name l a = some u → tagNonAlias u = true := by
  intro t ht a ha hne u hu
  have hb := (List.all_eq_true.mp h) t ht
  rw [ha] at hb
  simpa [hne, hu] using hb

/-- A rebind step computes the same result over any `EnvRel`-related
environment, provided the tag's alias target (in the first environment) is a
non-alias tag. -/
theorem rebindTag_congr (l₁ l₂ : List STag) (h : EnvRel l₁ l₂) (t : STag)
    (htgt : ∀ a, t.aliasFor = some a → a ≠ "" →
      ∀ u, pyFindByName STag.name l₁ a = some u → tagNonAlias u = true) :
    rebindTag l₁ t = rebindTag l₂ t := by
  cases ht : t.aliasFor with
  | none => simp [rebindTag, ht]
  | some a =>
    by_cases ha : a = ""
    · simp [rebindTag, ht, ha]
    · rw [rebindTag_eq_alias l₁ t a ht ha, rebindTag_eq_alias l₂ t a ht ha]
      rcases pyFindByName_envRel l₁ l₂ h a with ⟨h1, h2⟩ | ⟨u, v, h1, h2, hr⟩
      · rw [h1, h2]
      · obtain ⟨hdt1, hdt2⟩ := hr.2.2.2 (htgt a ht ha u h1)
        rw [h1, h2]
        simp [hdt1, hdt2]

/-- Under the no-alias-chain hypothesis, the in-place pass computes each tag
against the ORIGINAL collection: the entries updated before a given tag agree
with their originals on every field a lookup can use. -/
theorem rebindPassAux_map (l : List STag) (hH : noAliasChains l = true) :
    ∀ suf pre, l = pre ++ suf →
      rebindPassAux (pre.map (rebindTag l)) suf = l.map (rebindTag l) := by
  intro suf
  induction suf with
  | nil =>
    intro pre hps
    simp [rebindPassAux, hps]
  | cons t rest ih =>
    intro pre hps
    have henv2 : EnvRel (pre ++ t :: rest) (pre.map (rebindTag l) ++ t :: rest) :=
      envRel_append (envRel_map_rebind pre l) (envRel_refl (t :: rest))
    have henv : EnvRel l (pre.map (rebindTag l) ++ t :: rest) := by
      nth_rewrite 1 [hps]
      exact henv2
    have hmemt : t ∈ l := by
      rw [hps]
      exact List.mem_append_right pre (by simp)
    have hstep : rebindTag (pre.map (rebindTag l) ++ t :: rest) t = rebindTag l t :=
      (rebindTag_congr l (pre.map (rebindTag l) ++ t :: rest) henv t
        (fun a hA ha u hu => noAliasChains_spec l hH t hmemt a hA ha u hu)).symm
    show rebindPassAux
        (pre.map (rebindTag l) ++ [rebindTag (pre.map (rebindTag l) ++ t :: rest) t]) rest
      = l.map (rebindTag l)
    rw [hstep]
    have hacc : pre.map (rebindTag l) ++ [rebindTag l t] = (pre ++ [t]).map (rebindTag l) := by
      simp
    rw [hacc]
    exact ih (pre ++ [t]) (by rw [hps]; simp)

/-- Under the no-alias-chain hypothesis, a full pass is the elementwise
rebinding against the original collection. -/
theorem rebindPass_eq_map (l : List STag) (hH : noAliasChains l = true) :
    rebindPass l = l.map (rebindTag l) :=
  rebindPassAux_map l hH l [] rfl

/-- Lookups in the rebound collection return the rebound originals. -/
theorem pyFindByName_map_rebind (l env : List STag) (a : String) :
    pyFindByName STag.name (l.map (rebindTag env)) a
      = (pyFindByName STag.name l a).map (rebindTag env) := by
  induction l with
  | nil => rfl
  | cons u us ih =>
    by_cases h : u.name = a
    · have hm : (rebindTag env u).name = a := by
        rw [(rebindTag_id_fields env u).1]; exact h
      simp [pyFindByName, h, hm]
    · have hm : ¬ (rebindTag env u).name = a := by
        rw [(rebindTag_id_fields env u).1]; exact h
      simp [pyFindByName, h, hm, ih]

/-- Rebinding does not change alias-ness. -/
theorem tagNonAlias_rebind (env : List STag) (u : STag) :
    tagNonAlias (rebindTag env u) = tagNonAlias u := by
  simp [tagNonAlias, (rebindTag_id_fields env u).2.1]

/-- The no-alias-chain hypothesis survives a rebind pass. -/
theorem noAliasChains_map (l : List STag) (hH : noAliasChains l = true) :
    noAliasChains (l.map (rebindTag l)) = true := by
  apply List.all_eq_true.mpr
  intro x hx
  obtain ⟨t, ht, rfl⟩ := List.mem_map.mp hx
  rw [show (rebindTag l t).aliasFor = t.aliasFor from (rebindTag_id_fields l t).2.1]
  cases hA : t.aliasFor with
  | none => rfl
  | some a =>
    by_cases ha : a = ""
    · simp [ha]
    · cases hu : pyFindByName STag.name l a with
      | none => simp [ha, pyFindByName_map_rebind l l a, hu]
      | some u =>
        have hnu := noAliasChains_spec l hH t ht a hA ha u hu
        simp [ha, pyFindByName_map_rebind l l a, hu, tagNonAlias_rebind, hnu]

/-- Each rebound tag is a fixed point of the rebind step over the rebound
collection, under the no-alias-chain hypothesis. -/
theorem rebindTag_fix (l : List STag) (hH : noAliasChains l = true) (t : STag) (ht : t ∈ l) :
    rebindTag (l.map (rebindTag l)) (rebindTag l t) = rebindTag l t := by
  have hsp : tagSetProps (rebindTag l t) = rebindTag l t :=
    tagSetProps_of_props _ (by
      rw [(rebindTag_id_fields l t).2.2, rebindTag_descProps])
  by_cases hna : tagNonAlias t = true
  · have hxna : tagNonAlias (rebindTag l t) = true := by
      rw [tagNonAlias_rebind]; exact hna
    rw [rebindTag_nonAlias _ _ hxna, hsp]
  · obtain ⟨a, hA, ha⟩ : ∃ a, t.aliasFor = some a ∧ a ≠ "" := by
      cases hA : t.aliasFor with
      | none => exact absurd (by simp [tagNonAlias, hA]) hna
      | some a =>
        refine ⟨a, rfl, ?_⟩
        intro he
        exact hna (by simp [tagNonAlias, hA, he])
    have hxa : (rebindTag l t).aliasFor = some a := by
      rw [(rebindTag_id_fields l t).2.1]; exact hA
    rw [rebindTag_eq_alias (l.map (rebindTag l)) (rebindTag l t) a hxa ha]
    rw [pyFindByName_map_rebind l l a]
    cases hu : pyFindByName STag.name l a with
    | none => simpa using hsp
    | some u =>
      have hnu : tagNonAlias u = true := noAliasChains_spec l hH t ht a hA ha u hu
      have hru : rebindTag l u = tagSetProps u := rebindTag_nonAlias l u hnu
      have hx : rebindTag l t
          = { tagSetProps t with datatype := u.datatype
                                 datatypeMetaName := u.datatypeMetaName } := by
        rw [rebindTag_eq_alias l t a hA ha, hu]
      simp only [Option.map, hru, hsp, hx]
      rfl

/-- A pass over a collection of per-step fixed points changes nothing. -/
theorem rebindPassAux_fix (l : List STag) (hfix : ∀ x ∈ l, rebindTag l x = x) :
    ∀ suf pre, l = pre ++ suf → rebindPassAux pre suf = l := by
  intro suf
  induction suf with
  | nil =>
    intro pre h
    simp [rebindPassAux, h]
  | cons t rest ih =>
    intro pre h
    show rebindPassAux (pre ++ [rebindTag (pre ++ t :: rest) t]) rest = l
    rw [← h]
    rw [hfix t (by rw [h]; exact List.mem_append_right pre (by simp))]
    exact ih (pre ++ [t]) (by rw [h]; simp)

/-- The self-referential tag pass is idempotent under the no-alias-chain
hypothesis. -/
theorem rebindPass_idem (l : List STag) (hH : noAliasChains l = true) :
    rebindPass (rebindPass l) = rebindPass l := by
  rw [rebindPass_eq_map l hH]
  have hfix : ∀ x ∈ l.map (rebindTag l), rebindTag (l.map (rebindTag l)) x = x := by
    intro x hx
    obtain ⟨t, ht, rfl⟩ := List.mem_map.mp hx
    exact rebindTag_fix l hH t ht
  exact rebindPassAux_fix (l.map (rebindTag l)) hfix (l.map (rebindTag l)) [] rfl

/-- Against a fixed environment, a single tag rebind is idempotent: the second
run re-parses the same description and re-copies the same target fields. -/
theorem rebindTag_idem (env : List STag) (t : STag) :
    rebindTag env (rebindTag env t) = rebindTag env t := by
  have hsp : tagSetProps (rebindTag env t) = rebindTag env t :=
    tagSetProps_of_props _ (by rw [(rebindTag_id_fields env t).2.2, rebindTag_descProps])
  cases hA : t.aliasFor with
  | none =>
    have hA2 : (rebindTag env t).aliasFor = none := by
      rw [(rebindTag_id_fields env t).2.1]; exact hA
    rw [rebindTag_nonAlias env _ (by simp [tagNonAlias, hA2]), hsp]
  | some a =>
    have hA2 : (rebindTag env t).aliasFor = some a := by
      rw [(rebindTag_id_fields env t).2.1]; exact hA
    by_cases ha : a = ""
    · rw [rebindTag_nonAlias env _ (by simp [tagNonAlias, hA2, ha]), hsp]
    · rw [rebindTag_eq_alias env _ a hA2 ha]
      cases hu : pyFindByName STag.name env a with
      | none => simpa using hsp
      | some u =>
        have hx : rebindTag env t
            = { tagSetProps t with datatype := u.datatype
                                   datatypeMetaName := u.datatypeMetaName } := by
          rw [rebindTag_eq_alias env t a hA ha, hu]
        rw [hsp, hx]

/-- Pointwise idempotence lifts to a mapped list. -/
theorem map_self_idem {α : Type} (f : α → α) (hf : ∀ x, f (f x) = f x) (l : List α) :
    (l.map f).map f = l.map f := by
  induction l with
  | nil => rfl
  | cons a as ih => simp only [List.map_cons, hf a, ih]

/-- `lstrip` never leaves leading whitespace. -/
theorem pyStripLeft_noLead (l : List Char) :
    pyStripLeft l = [] ∨ ∃ c cs, pyStripLeft l = c :: cs ∧ pyIsWs c = false := by
  induction l with
  | nil => exact Or.inl rfl
  | cons c cs ih =>
    by_cases h : pyIsWs c
    · simpa [pyStripLeft, h] using ih
    · exact Or.inr ⟨c, cs, by simp [pyStripLeft, h], by simp [h]⟩

/-- A list with no leading whitespace is fixed by `lstrip`. -/
theorem pyStripLeft_fix (l : List Char)
    (h : l = [] ∨ ∃ c cs, l = c :: cs ∧ pyIsWs c = false) : pyStripLeft l = l := by
  rcases h with h | ⟨c, cs, rfl, hc⟩
  · rw [h]; rfl
  · simp [pyStripLeft, hc]

/-- `lstrip` returns a suffix of its input. -/
theorem pyStripLeft_suffix (l : List Char) : ∃ p, l = p ++ pyStripLeft l := by
  induction l with
  | nil => exact ⟨[], rfl⟩
  | cons c cs ih =>
    by_cases h : pyIsWs c
    · obtain ⟨p, hp⟩ := ih
      refine ⟨c :: p, ?_⟩
      simp only [pyStripLeft, h, if_pos, List.cons_append]
      exact congrArg (c :: ·) hp
    · exact ⟨[], by simp [pyStripLeft, h]⟩

/-- `rstrip` returns a prefix of its input. -/
theorem pyStripRight_pre (l : List Char) : ∃ suf, l = pyStripRight l ++ suf := by
  obtain ⟨p, hp⟩ := pyStripLeft_suffix l.reverse
  refine ⟨p.reverse, ?_⟩
  have h2 := congrArg List.reverse hp
  simpa [pyStripRight] using h2

/-- `rstrip` preserves the absence of leading whitespace. -/
theorem pyStripRight_noLead (l : List Char)
    (h : l = [] ∨ ∃ c cs, l = c :: cs ∧ pyIsWs c = false) :
    pyStripRight l = [] ∨ ∃ c cs, pyStripRight l = c :: cs ∧ pyIsWs c = false := by
  cases hr : pyStripRight l with
  | nil => exact Or.inl rfl
  | cons c cs =>
    obtain ⟨suf, hsuf⟩ := pyStripRight_pre l
    rw [hr] at hsuf
    rcases h with h | ⟨c', cs', hl, hc'⟩
    · rw [h] at hsuf
      exact absurd hsuf (by simp)
    · rw [hl] at hsuf
      have hcc : c' = c := by
        simpa using congrArg (fun x => x.headI) hsuf
      exact Or.inr ⟨c, cs, rfl, by rw [← hcc]; exact hc'⟩

/-- `rstrip` is idempotent. -/
theorem pyStripRight_idem (l : List Char) :
    pyStripRight (pyStripRight l) = pyStripRight l := by
  show (pyStripLeft (pyStripLeft l.reverse).reverse.reverse).reverse
    = (pyStripLeft l.reverse).reverse
  rw [List.reverse_reverse,
    pyStripLeft_fix (pyStripLeft l.reverse) (pyStripLeft_noLead l.reverse)]

/-- `strip` is idempotent. -/
theorem pyStrip_idem (l : List Char) : pyStrip (pyStrip l) = pyStrip l := by
  show pyStripRight (pyStripLeft (pyStripRight (pyStripLeft l)))
    = pyStripRight (pyStripLeft l)
  rw [pyStripLeft_fix _ (pyStripRight_noLead _ (pyStripLeft_noLead l)),
    pyStripRight_idem]

/-- `str.strip()` is idempotent at the `String` level. -/
theorem pyStripStr_idem (s : String) : pyStripStr (pyStripStr s) = pyStripStr s :=
  congrArg String.mk (pyStrip_idem s.toList)

/-- A successful name lookup means the name is present. -/
theorem pyFindByName_some_mem {α : Type} (nm : α → String) (l : List α) (s : String)
    (y : α) (h : pyFindByName nm l s = some y) : s ∈ l.map nm := by
  by_contra hn
  rw [pyFindByName_eq_none nm l s
    (fun x hx he => hn (he ▸ List.mem_map_of_mem nm hx))] at h
  exact Option.noConfusion h

/-- Appending under the name guard cannot remove a present name. -/
theorem safeAddItem_names_mono {α : Type} (nm : α → String) (l : List α) (x : α)
    (s : String) (h : s ∈ l.map nm) : s ∈ (safeAddItem nm l x).map nm := by
  unfold safeAddItem
  cases pyFindByName nm l (nm x) with
  | some y => exact h
  | none => simp [h]

/-- The added element's name is present after a name-guarded addition. -/
theorem safeAddItem_name_mem {α : Type} (nm : α → String) (l : List α) (x : α) :
    nm x ∈ (safeAddItem nm l x).map nm := by
  unfold safeAddItem
  cases hfind : pyFindByName nm l (nm x) with
  | some y => exact pyFindByName_some_mem nm l (nm x) y hfind
  | none => simp

/-- A name-guarded addition whose name is already present is a no-op. -/
theorem safeAddItem_of_name_mem {α : Type} (nm : α → String) (l : List α) (x : α)
    (h : nm x ∈ l.map nm) : safeAddItem nm l x = l := by
  apply safeAddItem_of_mem
  obtain ⟨y, hy, hxy⟩ := List.mem_map.mp h
  obtain ⟨z, hz⟩ := pyFindByName_of_mem nm l y hy
  exact ⟨z, by rw [← hxy]; exact hz⟩

/-- A rung-loop step never loses a present name. -/
theorem rungAppendStep_names_mono (env acc : List STag) (pt : STag)
    (s : String) (h : s ∈ acc.map STag.name) :
    s ∈ (rungAppendStep env acc pt).map STag.name := by
  unfold rungAppendStep
  cases rungAliasTarget env pt with
  | none => exact h
  | some u => exact safeAddItem_names_mono STag.name acc u s h

/-- The rung tag loop never loses a present name. -/
theorem rungTagAppends_names_mono (env : List STag) (pts : List STag) :
    ∀ acc s, s ∈ acc.map STag.name → s ∈ (rungTagAppends env pts acc).map STag.name := by
  induction pts with
  | nil => intro acc s h; exact h
  | cons pt rest ih =>
    intro acc s h
    show s ∈ (rungTagAppends env rest (rungAppendStep env acc pt)).map STag.name
    exact ih (rungAppendStep env acc pt) s (rungAppendStep_names_mono env acc pt s h)

/-- After the loop, every resolvable program-tag alias target is present by
name in the rung tag list. -/
theorem rungTagAppends_covers (env : List STag) (pts : List STag) :
    ∀ acc, ∀ pt ∈ pts, ∀ u, rungAliasTarget env pt = some u →
      u.name ∈ (rungTagAppends env pts acc).map STag.name := by
  induction pts with
  | nil =>
    intro acc pt hpt
    cases hpt
  | cons q rest ih =>
    intro acc pt hpt u hu
    show u.name ∈ (rungTagAppends env rest (rungAppendStep env acc q)).map STag.name
    rcases List.mem_cons.mp hpt with rfl | hmem
    · apply rungTagAppends_names_mono
      unfold rungAppendStep
      rw [hu]
      exact safeAddItem_name_mem STag.name acc u
    · exact ih (rungAppendStep env acc q) pt hmem u hu

/-- The rung tag loop is the identity once every resolvable alias target is
already present by name. -/
theorem rungTagAppends_fix (env : List STag) (pts : List STag) :
    ∀ R, (∀ pt ∈ pts, ∀ u, rungAliasTarget env pt = some u →
        u.name ∈ R.map STag.name) →
      rungTagAppends env pts R = R := by
  induction pts with
  | nil => intro R _; rfl
  | cons q rest ih =>
    intro R h
    have hq : rungAppendStep env R q = R := by
      unfold rungAppendStep
      cases hu : rungAliasTarget env q with
      | none => rfl
      | some u => exact safeAddItem_of_name_mem STag.name R u (h q (by simp) u hu)
    show rungTagAppends env rest (rungAppendStep env R q) = R
    rw [hq]
    exact ih R (fun pt hpt u hu => h pt (by simp [hpt]) u hu)

/-- Running the rung tag loop a second time changes nothing. -/
theorem rungTagAppends_idem (env : List STag) (pts acc : List STag) :
    rungTagAppends env pts (rungTagAppends env pts acc)
      = rungTagAppends env pts acc :=
  rungTagAppends_fix env pts (rungTagAppends env pts acc)
    (fun pt hpt u hu => rungTagAppends_covers env pts acc pt hpt u hu)

/-- `Rung.rebind` against a fixed controller tag collection is idempotent. -/
theorem rungRebind_idem (env : List STag) (g : SRung) :
    rungRebind env (rungRebind env g) = rungRebind env g := by
  cases g with
  | mk text desc props comment tags pts aois =>
    simp only [rungRebind]
    rw [rungTagAppends_idem]

/-- `Routine.rebind` against a fixed controller tag collection is
idempotent. -/
theorem routineRebind_idem (env : List STag) (r : SRoutine) :
    routineRebind env (routineRebind env r) = routineRebind env r := by
  cases r with
  | mk nm desc props dtype rungs =>
    simp only [routineRebind]
    rw [map_self_idem (rungRebind env) (rungRebind_idem env) rungs]

/-- `Module.rebind` (the inherited re-parse) is idempotent. -/
theorem moduleRebind_idem (m : SModule) :
    moduleRebind (moduleRebind m) = moduleRebind m := by
  cases m
  rfl

/-- `AddOnInstructionDefinition.rebind` (the inherited re-parse) is
idempotent. -/
theorem aoiRebind_idem (a : SAoi) :
    aoiRebind (aoiRebind a) = aoiRebind a := by
  cases a
  rfl

/-- `Task.rebind` against a fixed program collection is idempotent. -/
theorem taskRebind_idem (env : List SProgram) (t : STask) :
    taskRebind env (taskRebind env t) = taskRebind env t :=
  rfl

/-- `Program.rebind` against a fixed controller tag collection is
idempotent. -/
theorem progRebind_idem (env : List STag) (p : SProgram) :
    progRebind env (progRebind env p) = progRebind env p := by
  cases p with
  | mk nm desc props dtype gen tags routines =>
    simp only [progRebind]
    rw [map_self_idem (routineRebind env) (routineRebind_idem env) routines,
      map_self_idem (rebindTag env) (rebindTag_idem env) tags]
    simp only [SProgram.mk.injEq, true_and, and_true]
    cases hds : (routines.map (routineRebind env)).filter
        (fun r => r.descType = some "DRIVER") with
    | nil =>
      simp only [List.foldl_nil]
      rw [map_self_idem pyStripStr pyStripStr_idem]
    | cons d rest =>
      simp only [List.foldl_cons]

/-- `DataType.rebind` never changes a datatype's name. -/
theorem dtRebindOne_name (env : List SDataType) (d : SDataType) :
    (dtRebindOne env d).name = d.name :=
  rfl

/-- The name sequence carried through the in-place datatype pass. -/
theorem dtPassAux_names (suf : List SDataType) :
    ∀ acc, (dtPassAux acc suf).map SDataType.name
      = acc.map SDataType.name ++ suf.map SDataType.name := by
  induction suf with
  | nil => intro acc; simp [dtPassAux]
  | cons d rest ih =>
    intro acc
    show (dtPassAux (acc ++ [dtRebindOne (acc ++ d :: rest) d]) rest).map SDataType.name = _
    rw [ih]
    simp [dtRebindOne_name]

/-- Lookup failure depends only on the name sequence of the collection. -/
theorem pyFindByName_none_congr {α : Type} (nm : α → String) (l₁ l₂ : List α)
    (h : l₁.map nm = l₂.map nm) (s : String)
    (hn : pyFindByName nm l₁ s = none) : pyFindByName nm l₂ s = none := by
  apply pyFindByName_eq_none
  intro x hx he
  have hmem : s ∈ l₂.map nm := he ▸ List.mem_map_of_mem nm hx
  rw [← h] at hmem
  exact pyFindByName_none nm l₁ s hn hmem

/-- Rebinding a member a second time against any environment carrying the
same name sequence changes nothing: a resolved reference is guarded, and an
unresolved one still fails its lookup. -/
theorem memberRebind_stable (env env' : List SDataType) (m : SMember)
    (h : env.map SDataType.name = env'.map SDataType.name) :
    memberRebind env' (memberRebind env m) = memberRebind env m := by
  cases m with
  | mk n d mn dim r hid dt =>
    cases dt with
    | some x => rfl
    | none =>
      show memberRebind env'
          (SMember.mk n d mn dim r hid (byNameOpt SDataType.name env mn))
        = SMember.mk n d mn dim r hid (byNameOpt SDataType.name env mn)
      cases hb : byNameOpt SDataType.name env mn with
      | some u => rfl
      | none =>
        have hb' : byNameOpt SDataType.name env' mn = none := by
          cases mn with
          | none => rfl
          | some a => exact pyFindByName_none_congr SDataType.name env env' h a hb
        show SMember.mk n d mn dim r hid (byNameOpt SDataType.name env' mn)
          = SMember.mk n d mn dim r hid none
        rw [hb']

/-- Rebinding a datatype a second time against any environment carrying the
same name sequence changes nothing. -/
theorem dtRebindOne_stable (env env' : List SDataType) (d : SDataType)
    (h : env.map SDataType.name = env'.map SDataType.name) :
    dtRebindOne env' (dtRebindOne env d) = dtRebindOne env d := by
  cases d with
  | mk n desc pr a b ms =>
    show SDataType.mk n desc (getProperties (propertyListFromString desc)) a b
        ((ms.map (memberRebind env)).map (memberRebind env'))
      = SDataType.mk n desc (getProperties (propertyListFromString desc)) a b
        (ms.map (memberRebind env))
    refine congrArg (SDataType.mk n desc (getProperties (propertyListFromString desc)) a b) ?_
    rw [List.map_map]
    refine List.map_congr_left ?_
    intro m _
    exact memberRebind_stable env env' m h

/-- Every element the in-place datatype pass emits is stable under a further
rebind against any environment carrying the full name sequence. -/
theorem dtPassAux_stable (ns : List String) (suf : List SDataType) :
    ∀ acc, acc.map SDataType.name ++ suf.map SDataType.name = ns →
      (∀ x ∈ acc, ∀ env', env'.map SDataType.name = ns → dtRebindOne env' x = x) →
      ∀ x ∈ dtPassAux acc suf, ∀ env', env'.map SDataType.name = ns →
        dtRebindOne env' x = x := by
  induction suf with
  | nil =>
    intro acc _ hacc x hx
    exact hacc x (by simpa [dtPassAux] using hx)
  | cons d rest ih =>
    intro acc hns hacc x hx env' henv'
    have henv0 : (acc ++ d :: rest).map SDataType.name = ns := by
      rw [← hns]
      simp
    refine ih (acc ++ [dtRebindOne (acc ++ d :: rest) d]) ?_ ?_ x hx env' henv'
    · rw [show (acc ++ [dtRebindOne (acc ++ d :: rest) d]).map SDataType.name
          = acc.map SDataType.name ++ [d.name] by simp [dtRebindOne_name]]
      rw [← hns]
      simp
    · intro y hy env₂ henv₂
      rcases List.mem_append.mp hy with hy | hy
      · exact hacc y hy env₂ henv₂
      · have hyd : y = dtRebindOne (acc ++ d :: rest) d := by simpa using hy
        subst hyd
        exact dtRebindOne_stable (acc ++ d :: rest) env₂ d (henv0.trans henv₂.symm)

/-- A pass over a collection of per-element fixed points changes nothing. -/
theorem dtPassAux_fix (L : List SDataType)
    (hfix : ∀ x ∈ L, ∀ env', env'.map SDataType.name = L.map SDataType.name →
      dtRebindOne env' x = x) :
    ∀ suf pre, L = pre ++ suf → dtPassAux pre suf = L := by
  intro suf
  induction suf with
  | nil =>
    intro pre h
    simp [dtPassAux, h]
  | cons d rest ih =>
    intro pre h
    show dtPassAux (pre ++ [dtRebindOne (pre ++ d :: rest) d]) rest = L
    rw [show dtRebindOne (pre ++ d :: rest) d = d from
      hfix d (by rw [h]; exact List.mem_append_right pre (by simp)) (pre ++ d :: rest)
        (by rw [h])]
    exact ih (pre ++ [d]) (by rw [h]; simp)

/-- The in-place datatype pass is idempotent. -/
theorem dtPass_idem (l : List SDataType) : dtPass (dtPass l) = dtPass l := by
  have hnames : (dtPass l).map SDataType.name = l.map SDataType.name := by
    simpa using dtPassAux_names l []
  have hstab : ∀ x ∈ dtPass l, ∀ env', env'.map SDataType.name = l.map SDataType.name →
      dtRebindOne env' x = x :=
    dtPassAux_stable (l.map SDataType.name) l [] (by simp)
      (fun x hx => absurd hx (List.not_mem_nil x))
  show dtPassAux [] (dtPass l) = dtPass l
  exact dtPassAux_fix (dtPass l)
    (fun x hx env' henv' => hstab x hx env' (by rw [henv', hnames]))
    (dtPass l) [] rfl

/-- C4 (amended): rebind is idempotent provided no alias tag of the
controller tag collection resolves to a tag that is itself an alias (with an
alias chain a pass resolves only one level, so a second pass can differ —
see the counterexample).  Under that hypothesis a second full
`Controller.rebind` leaves the controller state fixed, and each constituent
pass — the self-referential tag-collection pass, a single tag rebind against
a fixed collection, the datatype-member resolution, the in-place datatype
pass, `Rung.rebind` (whose name-guarded appends leave the rung tag set fixed
on a second run and whose AOI set is never touched at all), `Routine.rebind`,
`Program.rebind` (including the re-derived and re-stripped generator
properties) and `Task.rebind` — is idempotent, the non-self-referential ones
unconditionally against fixed collections. -/
theorem claim_C4_amended :
    (∀ l : List STag, noAliasChains l = true →
        rebindPass (rebindPass l) = rebindPass l) ∧
      (∀ (env : List STag) (t : STag),
        rebindTag env (rebindTag env t) = rebindTag env t) ∧
      (∀ (env : List SDataType) (m : SMember),
        memberRebind env (memberRebind env m) = memberRebind env m) ∧
      (∀ l : List SDataType, dtPass (dtPass l) = dtPass l) ∧
      (∀ (env : List STag) (g : SRung),
        rungRebind env (rungRebind env g) = rungRebind env g ∧
          (rungRebind env g).addOnInstructions = g.addOnInstructions) ∧
      (∀ (env : List STag) (r : SRoutine),
        routineRebind env (routineRebind env r) = routineRebind env r) ∧
      (∀ (env : List STag) (p : SProgram),
        progRebind env (progRebind env p) = progRebind env p) ∧
      (∀ (env : List SProgram) (t : STask),
        taskRebind env (taskRebind env t) = taskRebind env t) ∧
      (∀ c : SController, noAliasChains c.tags = true →
        controllerRebind (controllerRebind c) = controllerRebind c) := by
  refine ⟨rebindPass_idem, rebindTag_idem, ?_, dtPass_idem,
    fun env g => ⟨rungRebind_idem env g, ?_⟩, routineRebind_idem, progRebind_idem,
    taskRebind_idem, ?_⟩
  · intro env m
    cases m with
    | mk n d mn dim r hid dt =>
      cases dt with
      | some x => rfl
      | none =>
        show memberRebind env (SMember.mk n d mn dim r hid (byNameOpt SDataType.name env mn))
          = SMember.mk n d mn dim r hid (byNameOpt SDataType.name env mn)
        cases hr : byNameOpt SDataType.name env mn with
        | some x => simp [memberRebind, SMember.datatype, hr]
        | none =>
          simp [memberRebind, SMember.datatype, SMember.withDatatype,
            SMember.datatypeMetaName, hr]
  · cases g with
    | mk text desc props comment tags pts aois => rfl
  · intro c hH
    cases c with
    | mk nm desc props dts tags mods progs aois tsk =>
      have hH2 : noAliasChains tags = true := hH
      simp only [controllerRebind]
      rw [rebindPass_idem tags hH2, dtPass_idem dts,
        map_self_idem moduleRebind moduleRebind_idem mods,
        map_self_idem aoiRebind aoiRebind_idem aois,
        map_self_idem (progRebind (rebindPass tags)) (progRebind_idem (rebindPass tags))
          progs,
        map_self_idem (taskRebind (progs.map (progRebind (rebindPass tags))))
          (taskRebind_idem (progs.map (progRebind (rebindPass tags)))) tsk]

/-- Witness for the amended C4: a chain-free concrete collection (one alias
pointing at a base tag) is rebound idempotently, and a concrete controller
carrying it — with a datatype, module, program, driver routine, rung, AOI and
task — is a fixed point of a second full rebind. -/
theorem claim_C4_witness :
    (noAliasChains tagsNoChain = true ∧
        rebindPass (rebindPass tagsNoChain) = rebindPass tagsNoChain) ∧
      noAliasChains witController.tags = true ∧
        controllerRebind (controllerRebind witController)
          = controllerRebind witController :=
  ⟨⟨by decide, claim_C4_amended.1 tagsNoChain (by decide)⟩,
    by decide, claim_C4_amended.2.2.2.2.2.2.2.2 witController (by decide)⟩
